import Mathlib

/-!
# Verification of `gr_modtool.py`

A shallow embedding of the parts of `gr_modtool.py` (a GNU Radio module
scaffolding tool) that the specification's claims are about:

* the regex-based `CMakeFileEditor` operations (`append_value`,
  `remove_value`, `delete_entry`, `remove_double_newlines`),
* the `CodeGenerator` template engine (`get_template`, `strip_default_values`,
  `strip_arg_types`) together with the template texts it instantiates,
* the command dispatcher (`get_command_from_argv`, `main`),
* the `ModToolAdd` / `ModToolRemove` operation logic the claims mention.

All editor operations in the source are calls to Python's `re.sub` /
`re.search` with concrete pattern strings.  We embed the fragment of
Python's regex language those patterns use: literals, character classes,
and greedy/lazy quantifiers applied to character classes, plus capturing
groups and the MULTILINE `^` anchor.  The matcher is the standard
backtracking matcher (leftmost match, preference order of quantifiers),
written in continuation-passing style; `pySub` reproduces `re.sub`'s
scan-and-replace loop with its bounded replacement count.
-/

namespace GrModtool

/-- A character class of Python's `re`, as used by the patterns in the source:
a literal character, `\s`, `.` (any char except newline), `[a-zA-Z0-9_]`,
or a negated set `[^…]`. -/
inductive Cls where
  | ch (c : Char)
  | ws
  | dot
  | word
  | notOf (cs : List Char)
deriving Repr, DecidableEq

/-- Which characters a class accepts.  `\s` is `[ \t\n\r\f\v]` (the ASCII
whitespace of Python's `re`). -/
def Cls.holds : Cls → Char → Bool
  | .ch c, d => d == c
  | .ws, d => d == ' ' || d == '\t' || d == '\n' || d == '\r' || d == '\x0b' || d == '\x0c'
  | .dot, d => d != '\n'
  | .word, d => ('a' ≤ d && d ≤ 'z') || ('A' ≤ d && d ≤ 'Z') || ('0' ≤ d && d ≤ '9') || d == '_'
  | .notOf cs, d => !(cs.contains d)

/-- The regex fragment used by `gr_modtool.py`'s patterns.  Quantifiers
(`star`, `plus`, `opt`) apply to character classes only, which is exactly
the shape of every quantifier in the source's patterns.  `lazy = true`
marks the non-greedy variants (`*?`). -/
inductive RE where
  | eps
  | lits (s : List Char)
  | cls (k : Cls)
  | star (k : Cls) (lazy : Bool)
  | plus (k : Cls)
  | opt (k : Cls)
  | grp (n : Nat) (r : RE)
  | seq (a b : RE)
deriving Repr

/-- Literal regex text (no metacharacters), e.g. an interpolated entry name. -/
def RE.str (s : String) : RE := .lits s.data

/-- Sequence a list of regex pieces. -/
def RE.cat (rs : List RE) : RE := rs.foldr RE.seq RE.eps

/-- Captured groups: group number paired with the captured text. -/
abbrev Groups := List (Nat × List Char)

/-- The captured text of group `n` (empty if absent; every group referenced
by the source's replacement templates is always bound). -/
def grpVal (g : Groups) (n : Nat) : List Char :=
  match g.find? (fun p => p.1 == n) with
  | some p => p.2
  | none => []

/-- Strip a literal off the front of the input, or fail. -/
def stripPre : List Char → List Char → Option (List Char)
  | [], s => some s
  | _ :: _, [] => none
  | c :: l, d :: s => if c == d then stripPre l s else none

/-- First success of `f` over a list of candidate indices (backtracking order). -/
def firstSome (f : Nat → Option α) : List Nat → Option α
  | [] => none
  | i :: is =>
    match f i with
    | some r => some r
    | none => firstSome f is

/-- Length of the run of characters of class `k` at the head of `s`. -/
def countWhile (k : Cls) (s : List Char) : Nat := (s.takeWhile k.holds).length

/-- The backtracking matcher.  `mtch r s g k` tries to match `r` at the head
of `s` with groups-so-far `g`, calling continuation `k` on the rest of the
input; quantifier candidate orders reproduce Python's greedy/lazy preference. -/
def mtch : RE → List Char → Groups → (List Char → Groups → Option (Groups × List Char)) →
    Option (Groups × List Char)
  | .eps, s, g, k => k s g
  | .lits l, s, g, k =>
    match stripPre l s with
    | some s' => k s' g
    | none => none
  | .cls c, s, g, k =>
    match s with
    | [] => none
    | d :: s' => if c.holds d then k s' g else none
  | .star c lzy, s, g, k =>
    let n := countWhile c s
    let idxs := if lzy then List.range (n + 1) else (List.range (n + 1)).reverse
    firstSome (fun i => k (s.drop i) g) idxs
  | .plus c, s, g, k =>
    let n := countWhile c s
    firstSome (fun i => k (s.drop i) g) (((List.range n).map (· + 1)).reverse)
  | .opt c, s, g, k =>
    match s with
    | d :: s' =>
      if c.holds d then
        match k s' g with
        | some r => some r
        | none => k s g
      else k s g
    | [] => k s g
  | .grp n r, s, g, k =>
    mtch r s g (fun s' g' => k s' ((n, s.take (s.length - s'.length)) :: g'))
  | .seq a b, s, g, k => mtch a s g (fun s' g' => mtch b s' g' k)

/-- A compiled pattern: whether it begins with a MULTILINE `^` anchor,
followed by the regex body. -/
structure Pattern where
  bol : Bool
  re : RE

/-- Try a match at the current position.  `atStart` says whether the position
is the buffer start or just after a newline (where MULTILINE `^` matches).
Returns the groups and the unconsumed rest on success. -/
def tryHere (p : Pattern) (atStart : Bool) (s : List Char) : Option (Groups × List Char) :=
  if p.bol && !atStart then none
  else mtch p.re s [] (fun s' g => some (g, s'))

/-- Leftmost search, as `re.search`: try each position left to right.
Returns `(pre, mid, groups, rest)`: the text before the match, the matched
text, the groups and the rest. -/
def searchSplit (p : Pattern) : Bool → List Char → Option (List Char × List Char × Groups × List Char)
  | atStart, [] =>
    match tryHere p atStart [] with
    | some (g, rest) => some ([], [], g, rest)
    | none => none
  | atStart, c :: s' =>
    match tryHere p atStart (c :: s') with
    | some (g, rest) => some ([], (c :: s').take ((c :: s').length - rest.length), g, rest)
    | none =>
      match searchSplit p (c == '\n') s' with
      | some (pre, mid, g, rest) => some (c :: pre, mid, g, rest)
      | none => none

/-- Whether the pattern matches anywhere in the buffer (`re.search` success). -/
def hasMatch (p : Pattern) (s : List Char) : Bool := (searchSplit p true s).isSome

/-- Decrement a remaining-replacement count (`none` = unlimited,
mirroring `re.sub`'s `count=0`). -/
def decr : Option Nat → Option Nat
  | none => none
  | some n => some (n - 1)

/-- After consuming `mid`, is the next position at a line start? -/
def nextAtStart (atStart : Bool) (mid : List Char) : Bool :=
  match mid.getLast? with
  | some c => c == '\n'
  | none => atStart

/-- The scan-and-replace loop of `re.sub`, fuelled so that it evaluates by
kernel reduction.  At each position: if the remaining count is exhausted,
copy the rest; else try a match here; on success emit the rendered
replacement and continue after the match (advancing one char on an empty
match, as `re.sub` does); on failure copy one char and continue. -/
def subFuel (p : Pattern) (repl : Groups → List Char) :
    Nat → Option Nat → Bool → List Char → List Char
  | 0, _, _, s => s
  | fuel + 1, cnt, atStart, s =>
    if cnt = some 0 then s
    else
      match tryHere p atStart s with
      | some (g, rest) =>
        let consumed := s.length - rest.length
        if consumed = 0 then
          match s with
          | [] => repl g
          | c :: s' => repl g ++ c :: subFuel p repl fuel (decr cnt) (c == '\n') s'
        else
          repl g ++ subFuel p repl fuel (decr cnt)
            (nextAtStart atStart (s.take consumed)) (s.drop consumed)
      | none =>
        match s with
        | [] => []
        | c :: s' => c :: subFuel p repl fuel cnt (c == '\n') s'

/-- `re.sub(pattern, repl, s, count)`: `cnt = some n` is a positive bound,
`cnt = none` is unlimited. -/
def pySub (p : Pattern) (repl : Groups → List Char) (cnt : Option Nat) (s : List Char) :
    List Char :=
  subFuel p repl (s.length + 1) cnt true s

/-- `re.match(r, s)` truthiness: a match anchored at the very start. -/
def reMatch (r : RE) (s : List Char) : Bool :=
  (mtch r s [] (fun s' g => some (g, s'))).isSome

/-! ## The `CMakeFileEditor` operations

Source, `class CMakeFileEditor` (gr_modtool.py lines 480-521).  Each
operation interpolates an entry name, a value and an ignore pattern into a
fixed pattern string and calls `re.sub` on the buffer `self.cfile`.  We
take the interpolated parts as regex fragments (`RE`); the call sites pass
plain identifiers/file names for `entry`/`value` and the fragment
`DESTINATION[^()]+` or the empty string for `to_ignore`. -/

/-- `[^()]` -/
def notParen : Cls := .notOf ['(', ')']

/-- `[^\n]` -/
def notNl : Cls := .notOf ['\n']

/-- Pattern of `append_value`:
`'(%s\([^()]*?)\s*?(\s?%s)\)' % (entry, to_ignore)` (line 500). -/
def appendPat (entry to_ignore : RE) : Pattern :=
  ⟨false, RE.cat [.grp 1 (RE.cat [entry, .str "(", .star notParen true]),
                  .star .ws true,
                  .grp 2 (RE.cat [.opt .ws, to_ignore]),
                  .str ")"]⟩

/-- `append_value(entry, value, to_ignore)` (lines 498-503): substitute the
first match of `appendPat` by `\1 + separator + value + \2 + ')'`. -/
def append_value (separator : String) (entry : RE) (value : String) (to_ignore : RE)
    (cfile : String) : String :=
  ⟨pySub (appendPat entry to_ignore)
    (fun g => grpVal g 1 ++ separator.data ++ value.data ++ grpVal g 2 ++ [')'])
    (some 1) cfile.data⟩

/-- Pattern of `remove_value`:
`'^\s*(%s\(\s*%s[^()]*?\s*)%s\s*([^()]*\))' % (entry, to_ignore, value)` (line 507). -/
def removePat (entry to_ignore value : RE) : Pattern :=
  ⟨true, RE.cat [.star .ws false,
                 .grp 1 (RE.cat [entry, .str "(", .star .ws false, to_ignore,
                                 .star notParen true, .star .ws false]),
                 value,
                 .star .ws false,
                 .grp 2 (RE.cat [.star notParen false, .str ")"])]⟩

/-- `remove_value(entry, value, to_ignore)` (lines 505-508): substitute the
first match of `removePat` by `\1\2` (MULTILINE). -/
def remove_value (entry : RE) (value : RE) (to_ignore : RE) (cfile : String) : String :=
  ⟨pySub (removePat entry to_ignore value)
    (fun g => grpVal g 1 ++ grpVal g 2) (some 1) cfile.data⟩

/-- Pattern of `delete_entry`:
`'%s\s*\([^()]*%s[^()]*\)[^\n]*\n' % (entry, value_pattern)` (line 512). -/
def deletePat (entry value_pattern : RE) : Pattern :=
  ⟨false, RE.cat [entry, .star .ws false, .str "(", .star notParen false,
                  value_pattern, .star notParen false, .str ")",
                  .star notNl false, .str "\n"]⟩

/-- `delete_entry(entry, value_pattern)` (lines 510-513): delete the first
match of `deletePat`. -/
def delete_entry (entry : RE) (value_pattern : RE) (cfile : String) : String :=
  ⟨pySub (deletePat entry value_pattern) (fun _ => []) (some 1) cfile.data⟩

/-- Pattern `'\n\n\n+'` of `remove_double_newlines` (line 521). -/
def nl3Pat : Pattern := ⟨false, RE.cat [.str "\n\n", .plus (.ch '\n')]⟩

/-- `remove_double_newlines()` (lines 519-521):
`re.sub('\n\n\n+', '\n\n', self.cfile)` — unlimited count. -/
def remove_double_newlines (cfile : String) : String :=
  ⟨pySub nl3Pat (fun _ => ['\n', '\n']) none cfile.data⟩

/-- Does the buffer start with three newlines (the shape `'\n\n\n+'` must
match at a position)? -/
def threeHead : List Char → Bool
  | c1 :: c2 :: c3 :: _ => c1 == '\n' && c2 == '\n' && c3 == '\n'
  | _ => false

/-- Does the buffer contain three consecutive newlines anywhere? -/
def hasTriple : List Char → Bool
  | c1 :: c2 :: c3 :: r => (c1 == '\n' && c2 == '\n' && c3 == '\n') || hasTriple (c2 :: c3 :: r)
  | _ => false

/-- Fuelled run-collapsing: a maximal run of `k ≥ 3` newlines becomes
exactly two newlines; all other characters are copied. -/
def collapseFuel : Nat → List Char → List Char
  | 0, s => s
  | fuel + 1, s =>
    match s with
    | '\n' :: '\n' :: '\n' :: t =>
      '\n' :: '\n' :: collapseFuel fuel (t.dropWhile (fun c => c == '\n'))
    | c :: t => c :: collapseFuel fuel t
    | [] => []

/-- Modelled from the spec: "`collapseBlankRuns()`: replace any run of 2+
consecutive blank lines with exactly one blank line" — on the newline runs
the source's pattern `'\n\n\n+'` targets, a run of `k ≥ 3` newline
characters (= `k-1 ≥ 2` blank lines) becomes exactly two newlines (= one
blank line). -/
def collapseBlankRuns (s : List Char) : List Char := collapseFuel (s.length + 1) s

/-- `t` contains `pat` as a contiguous substring. -/
def containsStr (t pat : String) : Prop := ∃ a b : String, t = a ++ pat ++ b

/-! ## The `CodeGenerator` helpers -/

/-- Pattern `" *=[^,)]*"` compiled as `self.defvalpatt` (line 405). -/
def defvalpatt : Pattern :=
  ⟨false, RE.cat [.star (.ch ' ') false, .str "=", .star (.notOf [',', ')']) false]⟩

/-- `strip_default_values(string)` (lines 414-416): `self.defvalpatt.sub("", string)`. -/
def strip_default_values (string : String) : String :=
  ⟨pySub defvalpatt (fun _ => []) none string.data⟩

/-- Python `str.upper()`, restricted to ASCII letters (the names the tool
uppercases are identifiers). -/
def pyUpper (s : String) : String := ⟨s.data.map fun c => if 'a' ≤ c && c ≤ 'z' then Char.ofNat (c.toNat - 32) else c⟩

/-- Python `str.lower()`, restricted to ASCII letters. -/
def pyLower (s : String) : String := ⟨s.data.map fun c => if 'A' ≤ c && c ≤ 'Z' then Char.ofNat (c.toNat + 32) else c⟩

/-- Python whitespace (as stripped by `str.strip()`). -/
def pyIsSpace (c : Char) : Bool :=
  c == ' ' || c == '\t' || c == '\n' || c == '\r' || c == '\x0b' || c == '\x0c'

/-- Python `str.strip()`. -/
def pyStrip (s : String) : String :=
  ⟨((s.data.dropWhile pyIsSpace).reverse.dropWhile pyIsSpace).reverse⟩

/-- Python `str.splitlines()` for `\n`-terminated text (the license texts the
tool wraps use `\n` line endings): split at each `\n`, no trailing empty line. -/
def pySplitlines : List Char → List (List Char)
  | [] => []
  | c :: cs =>
    if c = '\n' then [] :: pySplitlines cs
    else
      match pySplitlines cs with
      | [] => [[c]]
      | l :: ls => (c :: l) :: ls

/-- `str_to_fancyc_comment(text)` (lines 64-71).  Python indexes
`l_lines[0]`, which raises `IndexError` when `text` has no lines; that
failure is `none`. -/
def str_to_fancyc_comment (text : String) : Option String :=
  match pySplitlines text.data with
  | [] => none
  | l0 :: rest =>
    some (rest.foldl (fun outstr line => outstr ++ " * " ++ (⟨line⟩ : String) ++ "\n")
            ("/* " ++ (⟨l0⟩ : String) ++ "\n") ++ " */\n")

/-- `str_to_python_comment(text)` (lines 73-75):
`re.sub('^', '# ', text, flags=re.MULTILINE)`. -/
def str_to_python_comment (text : String) : String :=
  ⟨pySub ⟨true, RE.eps⟩ (fun _ => ['#', ' ']) none text.data⟩

/-- `strip_arg_types(string)` (lines 418-422): strip default values, then for
each comma-separated part keep the last `' '`-separated token. -/
def strip_arg_types (string : String) : String :=
  let string := strip_default_values string
  String.intercalate ", "
    ((string.splitOn ",").map fun part => ((pyStrip part).splitOn " ").getLastD "")

/-- `self.grtypelist` (lines 406-412); a missing key is a Python `KeyError`. -/
def grtypelist : String → Option String
  | "sync" => some "gr_sync_block"
  | "decimator" => some "gr_sync_decimator"
  | "interpolator" => some "gr_sync_interpolator"
  | "general" => some "gr_block"
  | "hiercpp" => some "gr_hier_block2"
  | "impl" => some ""
  | _ => none

/-! ## Template texts (lines 125-335)

The bodies of the primary-source templates, transcribed from the source with
`$`-placeholders spliced as function arguments.  Literal braces are written
with `\x7b` / `\x7d` escapes. -/

/-- `Templates['work_h']` (lines 125-128). -/
def Templates_work_h : String :=
  "\n\tint work (int noutput_items,\n\t\tgr_vector_const_void_star &input_items,\n\t\tgr_vector_void_star &output_items);"

/-- `Templates['generalwork_h']` (lines 130-134). -/
def Templates_generalwork_h : String :=
  "\n  int general_work (int noutput_items,\n\t\t    gr_vector_int &ninput_items,\n\t\t    gr_vector_const_void_star &input_items,\n\t\t    gr_vector_void_star &output_items);"

/-- `Templates['block_h']` (lines 137-168) with its placeholders substituted. -/
def Templates_block_h (license fullblocknameupper modname grblocktype fullblockname
    modnameupper blockname arglist argliststripped workfunc : String) : String :=
  "/* -*- c++ -*- */\n" ++ license ++ "\n" ++
  "#ifndef INCLUDED_" ++ fullblocknameupper ++ "_H" ++ "\n" ++
  "#define INCLUDED_" ++ fullblocknameupper ++ "_H" ++ "\n\n#include <" ++ modname ++
  "_api.h>\n#include <" ++ grblocktype ++ ".h>\n\nclass " ++ fullblockname ++
  ";\ntypedef boost::shared_ptr<" ++ fullblockname ++ "> " ++ fullblockname ++
  "_sptr;\n\n" ++ modnameupper ++ "_API " ++ fullblockname ++ "_sptr " ++ modname ++
  "_make_" ++ blockname ++ " (" ++ arglist ++
  ");\n\n/*!\n * \\brief <+description+>\n *\n */\nclass " ++ modnameupper ++ "_API " ++
  fullblockname ++ " : public " ++ grblocktype ++ "\n\x7b\n\tfriend " ++ modnameupper ++
  "_API " ++ fullblockname ++ "_sptr " ++ modname ++ "_make_" ++ blockname ++ " (" ++
  argliststripped ++ ");\n\n\t" ++ fullblockname ++ " (" ++ argliststripped ++
  ");\n\n public:\n\t~" ++ fullblockname ++ " ();\n\n" ++ workfunc ++ "\n\x7d;\n\n" ++
  "#endif /* INCLUDED_" ++ fullblocknameupper ++ "_H */" ++ "\n\n"

/-- `Templates['impl_h']` (lines 317-335) with its placeholders substituted. -/
def Templates_impl_h (license fullblocknameupper fullblockname arglist : String) : String :=
  "/* -*- c++ -*- */\n" ++ license ++ "\n" ++
  "#ifndef INCLUDED_QA_" ++ fullblocknameupper ++ "_H" ++ "\n" ++
  "#define INCLUDED_QA_" ++ fullblocknameupper ++ "_H" ++ "\n\nclass " ++ fullblockname ++
  "\n\x7b\n public:\n\t" ++ fullblockname ++ "(" ++ arglist ++ ");\n\t~" ++ fullblockname ++
  "();\n\n\n private:\n\n\x7d;\n\n" ++
  "#endif /* INCLUDED_" ++ fullblocknameupper ++ "_H */" ++ "\n\n"

/-- `Templates['hier_python']` (lines 298-314) with its placeholders substituted. -/
def Templates_hier_python (license blockname arglist inputsig outputsig : String) : String :=
  license ++ "\n\nfrom gnuradio import gr\n\nclass " ++ blockname ++
  "(gr.hier_block2):\n    def __init__(self, " ++ arglist ++
  "):\n    \"\"\"\n    docstring\n\t\"\"\"\n        gr.hier_block2.__init__(self, \"" ++
  blockname ++ "\",\n\t\t\t\tgr.io_signature(" ++ inputsig ++
  "),  # Input signature\n\t\t\t\tgr.io_signature(" ++ outputsig ++
  ")) # Output signature\n\n        # Define blocks\n        self.connect()\n\n"

/-- `CodeGenerator.get_template(tpl_id, **kwargs)` (lines 424-456), embedded
for the primary-source template ids the claims concern (`block_h`, `impl_h`,
`hier_python`); other template ids are outside the claims and yield `none`
here.  Faithful to the source's order: license wrapping first (a license
with no lines makes `str_to_fancyc_comment` raise, `none`), then the derived
argument lists and uppercased names, then the `self.grtypelist[...]` lookup
(a `KeyError` — `none` — when `blocktype` is not a key, e.g. `hierpython`),
then the `block_h` work-function branch, then substitution. -/
def get_template (tpl_id modname blockname fullblockname blocktype arglist license
    inputsig outputsig : String) : Option String :=
  let licenseO : Option String :=
    if tpl_id ∈ ["block_h", "block_cpp", "qa_h", "qa_cpp", "impl_h", "impl_cpp"] then
      str_to_fancyc_comment license
    else if tpl_id ∈ ["qa_python", "hier_python"] then
      some (str_to_python_comment license)
    else some license
  match licenseO with
  | none => none
  | some license =>
    let argliststripped := strip_default_values arglist
    let _arglistnotypes := strip_arg_types arglist
    let fullblocknameupper := pyUpper fullblockname
    let modnameupper := pyUpper modname
    match grtypelist blocktype with
    | none => none
    | some grblocktype =>
      let _swig := if blocktype != "hierpython" then "_swig" else ""
      let workfunc : String :=
        if blocktype == "general" then Templates_generalwork_h
        else if blocktype == "hiercpp" then ""
        else Templates_work_h
      if tpl_id == "block_h" then
        some (Templates_block_h license fullblocknameupper modname grblocktype
          fullblockname modnameupper blockname arglist argliststripped workfunc)
      else if tpl_id == "impl_h" then
        some (Templates_impl_h license fullblocknameupper fullblockname arglist)
      else if tpl_id == "hier_python" then
        some (Templates_hier_python license blockname arglist inputsig outputsig)
      else none

/-! ## The command dispatcher -/

/-- `get_command_from_argv(possible_cmds)` (lines 32-44): scan `argv`; an
argument starting with `-` is skipped; the first remaining argument that is
in `possible_cmds` is returned; `None` if no argument qualifies.  Python
evaluates `arg[0]`, which raises `IndexError` on an empty argument
(`Except.error`). -/
def get_command_from_argv (possible_cmds : List String) : List String → Except Unit (Option String)
  | [] => .ok none
  | arg :: rest =>
    match arg.data with
    | [] => .error ()
    | c :: _ =>
      if c == '-' then get_command_from_argv possible_cmds rest
      else if possible_cmds.contains arg then .ok (some arg)
      else get_command_from_argv possible_cmds rest

/-- The command names and aliases registered by `get_class_dict()` (lines
90-101): `ModToolAdd` (`add`/`insert`), `ModToolRemove` (`remove`/`rm`/`del`),
`ModToolNewModule` (`newmod`/`nm`/`create`), `ModToolHelp` (`help`/`h`/`?`). -/
def all_commands : List String :=
  ["add", "insert", "remove", "rm", "del", "newmod", "nm", "create", "help", "h", "?"]

/-- Outcome of `main()` (lines 2304-2313) up to command selection. -/
inductive MainOutcome where
  | crash
  | usage (exitCode : Nat)
  | run (cmd : String)
deriving Repr, DecidableEq

/-- `main()` (lines 2304-2313): select the command from `argv`; with no
command, print usage and `sys.exit(2)`; an uncaught `IndexError` from an
empty argument is a crash. -/
def main_dispatch (argv : List String) : MainOutcome :=
  match get_command_from_argv all_commands argv with
  | .error _ => .crash
  | .ok none => .usage 2
  | .ok (some c) => .run c

/-- Modelled from the spec: "the first token not beginning with a flag
prefix character" (spec §4.3), used to state claim C4's selection rule.
A token begins with the flag prefix character when its first character
is `-`. -/
def firstNonFlagToken : List String → Option String
  | [] => none
  | arg :: rest =>
    if arg.data.head? = some '-' then firstNonFlagToken rest else some arg

/-! ## `ModToolAdd` pieces -/

/-- The block-name validation of `ModToolAdd.setup` (lines 689-691):
`if not re.match('[a-zA-Z0-9_]+', blockname): sys.exit(2)`.
Result: `Except.error 2` on invalid input, `Except.ok ()` to proceed. -/
def add_blockname_check (blockname : String) : Except Nat Unit :=
  if !(reMatch (.plus .word) blockname.data) then .error 2 else .ok ()

/-- `ModToolAdd.setup` lines 694-697: the full block identifier
(`prefix + '_' + blockname`, where an `impl` block's module name gets an
`i` appended). -/
def add_fullblockname (modname blocktype blockname : String) : String :=
  (if blocktype == "impl" then modname ++ "i" else modname) ++ "_" ++ blockname

/-- `ModToolAdd.setup` lines 716-721: `source`/`sink` are normalized to
`sync` with the input/output signature pinned to `"0, 0, 0"`.
Returns `(blocktype, inputsig, outputsig)`. -/
def add_normalize (blocktype inputsig outputsig : String) : String × String × String :=
  let p1 := if blocktype == "source" then ("0, 0, 0", "sync") else (inputsig, blocktype)
  let p2 := if p1.2 == "sink" then ("0, 0, 0", "sync") else (outputsig, p1.2)
  (p2.2, p1.1, p2.1)

/-! ## `ModToolRemove` pieces -/

/-- `ModToolRemove.setup` (lines 898-911): pattern resolution — `--pattern`
flag, else `--block-name` flag, else second positional argument, else the
interactive answer; an empty resolved pattern becomes `'.'`. -/
def remove_resolve_pattern (optPattern optBlockName : Option String)
    (args : List String) (interactive : String) : String :=
  let p :=
    match optPattern with
    | some s => s
    | none =>
      match optBlockName with
      | some s => s
      | none => if 2 ≤ args.length then args.getD 1 "" else interactive
  if p.length = 0 then "." else p

/-- The regex `'.'` that an empty pattern is replaced by. -/
def dotPat : Pattern := ⟨false, .cls .dot⟩

/-- `os.path.basename`: the part after the last `/`. -/
def pyBasename (s : String) : String :=
  ⟨(s.data.reverse.takeWhile (fun c => c != '/')).reverse⟩

/-- The filter loop of `ModToolRemove._run_subdir` (lines 963-969): a file
is kept when `re.search(pattern, basename(f))` matches; when
`path is "swig"` it is appended (again) unconditionally. -/
def remove_filter_files (pattern : Pattern) (path : String) (files : List String) :
    List String :=
  files.foldr (fun f acc =>
    (if hasMatch pattern (pyBasename f).data then [f] else []) ++
    (if path == "swig" then [f] else []) ++ acc) []

/-- A prompt answer as the loop reads it: `raw_input(...).lower().strip()`
(line 980). -/
def pyAnswer (s : String) : String := pyStrip (pyLower s)

/-- Outcome of `ModToolRemove._run_subdir`'s deletion loop (lines 973-996):
either `sys.exit(0)` happened (from answer `q`), or the loop completed and
`ed.write()` ran.  `files_deleted` are the basenames deleted from disk;
`cmakeOnDisk` is the CMakeLists.txt content on disk afterwards. -/
inductive RunOutcome where
  | exited (code : Nat) (files_deleted : List String) (cmakeOnDisk : String)
  | completed (files_deleted : List String) (cmakeOnDisk : String)
deriving Repr, DecidableEq

/-- The deletion loop of `_run_subdir` (lines 977-995), one step per
filtered file paired with the answer its prompt would receive (unread when
`yes` is already set).  `edit b buf` is the in-memory CMakeLists edit for
deleted basename `b` (the `remove_value` calls over `makefile_vars` plus
the optional `cmakeedit_func`).  `disk` is the on-disk CMakeLists content,
written (`ed.write()`, lines 515-517) only when the loop completes. -/
def run_subdir_loop (edit : String → String → String) :
    List (String × String) → Bool → List String → String → String → RunOutcome
  | [], _, acc, buf, _ => .completed acc buf
  | (f, resp) :: rest, yes, acc, buf, disk =>
    if yes then
      run_subdir_loop edit rest yes (acc ++ [pyBasename f]) (edit (pyBasename f) buf) disk
    else
      let ans := pyAnswer resp
      let yes' := if ans == "a" then true else yes
      if ans == "q" then .exited 0 acc disk
      else if ans == "n" then run_subdir_loop edit rest yes' acc buf disk
      else run_subdir_loop edit rest yes' (acc ++ [pyBasename f]) (edit (pyBasename f) buf) disk

/-- `_run_subdir`'s loop from its start: the editor buffer and the on-disk
file both hold the loaded CMakeLists content `cmake0` (lines 975-976). -/
def run_subdir (edit : String → String → String) (pairs : List (String × String))
    (yes0 : Bool) (cmake0 : String) : RunOutcome :=
  run_subdir_loop edit pairs yes0 [] cmake0 cmake0

/-- The basenames the loop deletes over a span of prompted files with
neither `a` nor `q` answered: everything not answered `n`. -/
def loopDeleted (pairs : List (String × String)) : List String :=
  pairs.foldr (fun p acc => if pyAnswer p.2 == "n" then acc else pyBasename p.1 :: acc) []

/-! ## Engine lemmas -/

theorem stripPre_eq_some {l : List Char} :
    ∀ {s s' : List Char}, stripPre l s = some s' → s = l ++ s' := by
  induction l with
  | nil =>
    intro s s' h
    simp only [stripPre, Option.some.injEq] at h
    simp [h]
  | cons c l ih =>
    intro s s' h
    cases s with
    | nil => simp [stripPre] at h
    | cons d s =>
      simp only [stripPre] at h
      by_cases hc : c == d
      · rw [if_pos hc] at h
        have hs := ih h
        simp only [List.cons_append]
        rw [← hs]
        congr 1
        exact (beq_iff_eq.mp hc).symm
      · rw [if_neg hc] at h; cases h

theorem firstSome_eq_some {f : Nat → Option α} {l : List Nat} {r : α}
    (h : firstSome f l = some r) : ∃ i ∈ l, f i = some r := by
  induction l with
  | nil => simp [firstSome] at h
  | cons i is ih =>
    simp only [firstSome] at h
    cases hf : f i with
    | some v => rw [hf] at h; exact ⟨i, by simp, by simp [hf, ← h]⟩
    | none =>
      rw [hf] at h
      obtain ⟨j, hj, hfj⟩ := ih h
      exact ⟨j, by simp [hj], hfj⟩

/-- Whatever `mtch` returns was produced by the continuation on a suffix of
the input (the matcher only consumes characters). -/
theorem mtch_suffix (r : RE) :
    ∀ (s : List Char) (g : Groups) (k : List Char → Groups → Option (Groups × List Char))
      (res : Groups × List Char), mtch r s g k = some res →
      ∃ s' g', s'.IsSuffix s ∧ k s' g' = some res := by
  induction r with
  | eps =>
    intro s g k res h
    exact ⟨s, g, List.suffix_refl s, h⟩
  | lits l =>
    intro s g k res h
    simp only [mtch] at h
    cases hs : stripPre l s with
    | none => rw [hs] at h; cases h
    | some s' =>
      rw [hs] at h
      exact ⟨s', g, stripPre_eq_some hs ▸ List.suffix_append l s', h⟩
  | cls c =>
    intro s g k res h
    cases s with
    | nil => simp [mtch] at h
    | cons d s' =>
      simp only [mtch] at h
      split at h
      · exact ⟨s', g, List.suffix_cons d s', h⟩
      · cases h
  | star c lzy =>
    intro s g k res h
    simp only [mtch] at h
    obtain ⟨i, _, hfi⟩ := firstSome_eq_some h
    exact ⟨s.drop i, g, List.drop_suffix i s, hfi⟩
  | plus c =>
    intro s g k res h
    simp only [mtch] at h
    obtain ⟨i, _, hfi⟩ := firstSome_eq_some h
    exact ⟨s.drop i, g, List.drop_suffix i s, hfi⟩
  | opt c =>
    intro s g k res h
    cases s with
    | nil => exact ⟨[], g, List.suffix_refl _, h⟩
    | cons d s' =>
      simp only [mtch] at h
      split at h
      · cases hk : k s' g with
        | some v => rw [hk] at h; exact ⟨s', g, List.suffix_cons d s', by rw [hk, ← h]⟩
        | none => rw [hk] at h; exact ⟨d :: s', g, List.suffix_refl _, h⟩
      · exact ⟨d :: s', g, List.suffix_refl _, h⟩
  | grp n r ih =>
    intro s g k res h
    simp only [mtch] at h
    obtain ⟨s', g', hsuf, hk⟩ := ih s g _ res h
    exact ⟨s', (n, s.take (s.length - s'.length)) :: g', hsuf, hk⟩
  | seq a b iha ihb =>
    intro s g k res h
    simp only [mtch] at h
    obtain ⟨s1, g1, hsuf1, hk1⟩ := iha s g _ res h
    obtain ⟨s2, g2, hsuf2, hk2⟩ := ihb s1 g1 _ res hk1
    exact ⟨s2, g2, hsuf2.trans hsuf1, hk2⟩

/-- The rest returned by `tryHere` is a suffix of the input. -/
theorem tryHere_suffix {p : Pattern} {a : Bool} {s rest : List Char} {g : Groups}
    (h : tryHere p a s = some (g, rest)) : rest.IsSuffix s := by
  unfold tryHere at h
  split at h
  · cases h
  · obtain ⟨s', g', hsuf, hk⟩ := mtch_suffix p.re s [] _ _ h
    cases hk
    exact hsuf

theorem suffix_drop_eq {s rest : List Char} (h : rest.IsSuffix s) :
    s.drop (s.length - rest.length) = rest := by
  obtain ⟨t, rfl⟩ := h
  simp [List.drop_left]

theorem suffix_take_eq {s rest : List Char} (h : rest.IsSuffix s) :
    s.take (s.length - rest.length) ++ rest = s := by
  obtain ⟨t, rfl⟩ := h
  simp [List.take_left]

/-- One-step unfolding of `searchSplit` (its equations are per list
constructor; this restates them for an arbitrary input). -/
theorem searchSplit_unfold (p : Pattern) (a : Bool) (s : List Char) :
    searchSplit p a s =
      match tryHere p a s with
      | some (g, rest) => some ([], s.take (s.length - rest.length), g, rest)
      | none =>
        match s with
        | [] => none
        | c :: s' =>
          match searchSplit p (c == '\n') s' with
          | some (pre, mid, g, rest) => some (c :: pre, mid, g, rest)
          | none => none := by
  cases s with
  | nil =>
    cases h : tryHere p a [] with
    | some v =>
      obtain ⟨g, rest⟩ := v
      have hr : rest = [] := List.eq_nil_of_suffix_nil (tryHere_suffix h)
      subst hr
      simp [searchSplit, h]
    | none => simp [searchSplit, h]
  | cons c s' => rfl

/-- What `searchSplit` returns splits the input: `s = pre ++ mid ++ rest`. -/
theorem searchSplit_eq_append {p : Pattern} :
    ∀ {a : Bool} {s pre mid rest : List Char} {g : Groups},
      searchSplit p a s = some (pre, mid, g, rest) → s = pre ++ mid ++ rest := by
  intro a s
  induction s generalizing a with
  | nil =>
    intro pre mid rest g h
    simp only [searchSplit] at h
    cases ht : tryHere p a [] with
    | none => rw [ht] at h; cases h
    | some v =>
      rw [ht] at h
      obtain ⟨g0, rest0⟩ := v
      have hsuf := tryHere_suffix ht
      have : rest0 = [] := List.eq_nil_of_suffix_nil hsuf
      subst this
      cases h
      simp
  | cons c s ih =>
    intro pre mid rest g h
    simp only [searchSplit] at h
    cases ht : tryHere p a (c :: s) with
    | some v =>
      rw [ht] at h
      obtain ⟨g0, rest0⟩ := v
      cases h
      exact (suffix_take_eq (tryHere_suffix ht)).symm
    | none =>
      rw [ht] at h
      cases hrec : searchSplit p (c == '\n') s with
      | none => rw [hrec] at h; cases h
      | some v =>
        rw [hrec] at h
        obtain ⟨pre', mid', g', rest'⟩ := v
        cases h
        simpa using congrArg (c :: ·) (ih hrec)

/-- Inversion: a failed search fails at the head and on the tail. -/
theorem searchSplit_none_inv {p : Pattern} {a : Bool} {c : Char} {s : List Char}
    (h : searchSplit p a (c :: s) = none) :
    tryHere p a (c :: s) = none ∧ searchSplit p (c == '\n') s = none := by
  simp only [searchSplit] at h
  cases ht : tryHere p a (c :: s) with
  | some v => rw [ht] at h; cases h
  | none =>
    rw [ht] at h
    cases hrec : searchSplit p (c == '\n') s with
    | some v => rw [hrec] at h; obtain ⟨x, y, z, w⟩ := v; cases h
    | none => exact ⟨rfl, rfl⟩

/-- An exhausted replacement count copies the input unchanged. -/
theorem subFuel_count_zero (p : Pattern) (repl : Groups → List Char) :
    ∀ (fuel : Nat) (a : Bool) (s : List Char), subFuel p repl fuel (some 0) a s = s := by
  intro fuel a s
  cases fuel with
  | zero => rfl
  | succ n => simp [subFuel]

/-- If the pattern matches nowhere in the buffer, `re.sub` returns the buffer
unchanged (for any replacement count). -/
theorem subFuel_of_no_match (p : Pattern) (repl : Groups → List Char) :
    ∀ (fuel : Nat) (cnt : Option Nat) (a : Bool) (s : List Char),
      searchSplit p a s = none → subFuel p repl fuel cnt a s = s := by
  intro fuel
  induction fuel with
  | zero => intro cnt a s _; rfl
  | succ n ih =>
    intro cnt a s h
    cases s with
    | nil =>
      simp only [searchSplit] at h
      cases ht : tryHere p a [] with
      | some v => rw [ht] at h; obtain ⟨x, y⟩ := v; cases h
      | none => simp [subFuel, ht]
    | cons c s' =>
      obtain ⟨ht, hrec⟩ := searchSplit_none_inv h
      simp [subFuel, ht, ih cnt (c == '\n') s' hrec]

/-- With replacement count 1, `re.sub` replaces exactly the first match:
the output is the text before the match, the rendered replacement, and the
untouched rest of the buffer. -/
theorem subFuel_first_match (p : Pattern) (repl : Groups → List Char) :
    ∀ (fuel : Nat) (a : Bool) (s pre mid rest : List Char) (g : Groups),
      s.length < fuel → searchSplit p a s = some (pre, mid, g, rest) → mid ≠ [] →
      subFuel p repl fuel (some 1) a s = pre ++ repl g ++ rest := by
  intro fuel
  induction fuel with
  | zero =>
    intro a s pre mid rest g hlen _ _
    exact absurd hlen (Nat.not_lt_zero _)
  | succ n ih =>
    intro a s pre mid rest g hlen h hmid
    rw [searchSplit_unfold] at h
    cases ht : tryHere p a s with
    | some v =>
      obtain ⟨g0, rest0⟩ := v
      simp only [ht] at h
      cases h
      have hsuf := tryHere_suffix ht
      have hdrop : s.drop (s.length - rest.length) = rest := suffix_drop_eq hsuf
      have hne : ¬ (s.length - rest.length = 0) := by
        intro h0
        exact hmid (by simp [h0])
      simp only [subFuel]
      rw [if_neg (show ¬ (some 1 = some 0) by simp)]
      simp only [ht]
      rw [if_neg hne, hdrop]
      have hdecr : decr (some 1) = some 0 := rfl
      rw [hdecr, subFuel_count_zero]
      simp
    | none =>
      simp only [ht] at h
      cases s with
      | nil => cases h
      | cons c s' =>
        cases hrec : searchSplit p (c == '\n') s' with
        | none => simp only [hrec] at h; exact absurd h (by simp)
        | some v =>
          obtain ⟨pre', mid', g', rest'⟩ := v
          simp only [hrec] at h
          cases h
          simp only [subFuel]
          rw [if_neg (show ¬ (some 1 = some 0) by simp)]
          simp only [ht]
          rw [ih (c == '\n') s' pre' mid rest g
            (by simp only [List.length_cons] at hlen; omega) hrec hmid]
          simp

/-- A failed `hasMatch` is a failed search. -/
theorem searchSplit_eq_none_of_hasMatch_false {p : Pattern} {s : List Char}
    (h : hasMatch p s = false) : searchSplit p true s = none := by
  unfold hasMatch at h
  cases hs : searchSplit p true s with
  | none => rfl
  | some v => rw [hs] at h; cases h

/-! ## Claim theorems -/

/-- C2: for every loaded buffer and every keyword/value/ignore-pattern
argument such that the operation's regular expression has no match in the
buffer, each of `append_value`, `remove_value` and `delete_entry` leaves
the buffer exactly unchanged (silent no-op); no error is raised (the
embedded operations are total). -/
theorem claim_C2_silent_noop (separator : String) (entry to_ignore value_re : RE)
    (value : String) (buffer : String) :
    (hasMatch (appendPat entry to_ignore) buffer.data = false →
      append_value separator entry value to_ignore buffer = buffer) ∧
    (hasMatch (removePat entry to_ignore value_re) buffer.data = false →
      remove_value entry value_re to_ignore buffer = buffer) ∧
    (hasMatch (deletePat entry value_re) buffer.data = false →
      delete_entry entry value_re buffer = buffer) := by
  refine ⟨fun h => ?_, fun h => ?_, fun h => ?_⟩
  · simp only [append_value, pySub]
    rw [subFuel_of_no_match _ _ _ _ _ _ (searchSplit_eq_none_of_hasMatch_false h)]
  · simp only [remove_value, pySub]
    rw [subFuel_of_no_match _ _ _ _ _ _ (searchSplit_eq_none_of_hasMatch_false h)]
  · simp only [delete_entry, pySub]
    rw [subFuel_of_no_match _ _ _ _ _ _ (searchSplit_eq_none_of_hasMatch_false h)]

/-- Witness for C2 at a concrete buffer none of the three patterns match. -/
theorem claim_C2_witness :
    append_value " " (RE.str "add_library") "x.cc" RE.eps "project(hello)\n" = "project(hello)\n" ∧
    remove_value (RE.str "add_library") (RE.str "x.cc") RE.eps "project(hello)\n" = "project(hello)\n" ∧
    delete_entry (RE.str "add_library") (RE.str "x.cc") "project(hello)\n" = "project(hello)\n" := by
  have h := claim_C2_silent_noop " " (RE.str "add_library") RE.eps (RE.str "x.cc") "x.cc"
    "project(hello)\n"
  exact ⟨h.1 (by decide), h.2.1 (by decide), h.2.2 (by decide)⟩

/-- C7: on a string the default-value pattern does not match,
`strip_default_values` is the identity, hence stripping is idempotent. -/
theorem claim_C7_strip_idempotent (s : String) (h : hasMatch defvalpatt s.data = false) :
    strip_default_values (strip_default_values s) = strip_default_values s := by
  have h1 : strip_default_values s = s := by
    simp only [strip_default_values, pySub]
    rw [subFuel_of_no_match _ _ _ _ _ _ (searchSplit_eq_none_of_hasMatch_false h)]
  rw [h1]
  exact h1

/-- C3: with a bounded replacement count of 1, each editor operation
modifies only the first (earliest) match of its pattern: the buffer splits
as `pre ++ mid ++ rest` around that first match, and the operation's output
is `pre`, then the rendered replacement, then `rest` — every character
outside the first match is unchanged.  The hypothesis
`hasMatch … rest = true` is the claim's premise that a second matching
declaration exists after the first. -/
theorem claim_C3_first_match_only (separator : String) (entry to_ignore value_re : RE)
    (value : String) (buffer : String) :
    (∀ pre mid g rest,
      searchSplit (appendPat entry to_ignore) true buffer.data = some (pre, mid, g, rest) →
      mid ≠ [] → hasMatch (appendPat entry to_ignore) rest = true →
      buffer.data = pre ++ mid ++ rest ∧
      (append_value separator entry value to_ignore buffer).data =
        pre ++ (grpVal g 1 ++ separator.data ++ value.data ++ grpVal g 2 ++ [')']) ++ rest) ∧
    (∀ pre mid g rest,
      searchSplit (removePat entry to_ignore value_re) true buffer.data =
        some (pre, mid, g, rest) →
      mid ≠ [] → hasMatch (removePat entry to_ignore value_re) rest = true →
      buffer.data = pre ++ mid ++ rest ∧
      (remove_value entry value_re to_ignore buffer).data =
        pre ++ (grpVal g 1 ++ grpVal g 2) ++ rest) ∧
    (∀ pre mid g rest,
      searchSplit (deletePat entry value_re) true buffer.data = some (pre, mid, g, rest) →
      mid ≠ [] → hasMatch (deletePat entry value_re) rest = true →
      buffer.data = pre ++ mid ++ rest ∧
      (delete_entry entry value_re buffer).data = pre ++ rest) := by
  refine ⟨fun pre mid g rest hs hmid _ => ?_, fun pre mid g rest hs hmid _ => ?_,
    fun pre mid g rest hs hmid _ => ?_⟩
  · exact ⟨searchSplit_eq_append hs, by
      simp only [append_value, pySub]
      rw [subFuel_first_match _ _ _ _ _ _ _ _ _ (Nat.lt_succ_self _) hs hmid]⟩
  · exact ⟨searchSplit_eq_append hs, by
      simp only [remove_value, pySub]
      rw [subFuel_first_match _ _ _ _ _ _ _ _ _ (Nat.lt_succ_self _) hs hmid]⟩
  · exact ⟨searchSplit_eq_append hs, by
      simp only [delete_entry, pySub]
      rw [subFuel_first_match _ _ _ _ _ _ _ _ _ (Nat.lt_succ_self _) hs hmid]
      simp⟩

/-- Witness for C3 on a buffer with two identical declarations: only the
first is edited by each operation. -/
theorem claim_C3_witness :
    append_value " " (RE.str "add_library") "c.cc" RE.eps
        "add_library(a.cc)\nadd_library(a.cc)\n"
      = "add_library(a.cc c.cc)\nadd_library(a.cc)\n" ∧
    remove_value (RE.str "add_library") (RE.str "a.cc") RE.eps
        "add_library(a.cc)\nadd_library(a.cc)\n"
      = "add_library()\nadd_library(a.cc)\n" ∧
    delete_entry (RE.str "add_library") (RE.str "a.cc")
        "add_library(a.cc)\nadd_library(a.cc)\n"
      = "add_library(a.cc)\n" := by
  have h := claim_C3_first_match_only " " (RE.str "add_library") RE.eps (RE.str "a.cc")
    "c.cc" "add_library(a.cc)\nadd_library(a.cc)\n"
  refine ⟨?_, ?_, ?_⟩
  · have hd := (h.1 [] ("add_library(a.cc)" : String).data
      [(2, ([] : List Char)), (1, ("add_library(a.cc" : String).data)]
      ("\nadd_library(a.cc)\n" : String).data (by rfl) (by decide) (by decide)).2
    exact String.ext (hd.trans (by decide))
  · have hd := (h.2.1 [] ("add_library(a.cc)" : String).data
      [(2, ([')'] : List Char)), (1, ("add_library(" : String).data)]
      ("\nadd_library(a.cc)\n" : String).data (by rfl) (by decide) (by decide)).2
    exact String.ext (hd.trans (by decide))
  · have hd := (h.2.2 [] ("add_library(a.cc)\n" : String).data []
      ("add_library(a.cc)\n" : String).data (by rfl) (by decide) (by decide)).2
    exact String.ext (hd.trans (by decide))

/-! ### C8: `remove_double_newlines` -/

theorem collapseFuel_nil (fuel : Nat) : collapseFuel fuel [] = [] := by cases fuel <;> rfl

theorem threeHead_eq_true : ∀ {s : List Char}, threeHead s = true →
    ∃ t, s = '\n' :: '\n' :: '\n' :: t := by
  intro s h
  match s, h with
  | [], h => simp [threeHead] at h
  | [c], h => simp [threeHead] at h
  | [c, d], h => simp [threeHead] at h
  | c1 :: c2 :: c3 :: r, h =>
    simp only [threeHead] at h
    obtain ⟨⟨h1, h2⟩, h3⟩ : (c1 = '\n' ∧ c2 = '\n') ∧ c3 = '\n' := by simpa using h
    subst h1; subst h2; subst h3
    exact ⟨r, rfl⟩

theorem collapseFuel_not3 {c : Char} {t : List Char} (h : threeHead (c :: t) = false)
    (fuel : Nat) : collapseFuel (fuel + 1) (c :: t) = c :: collapseFuel fuel t := by
  simp only [collapseFuel]
  split
  · next t' heq =>
    exfalso
    rw [heq] at h
    simp [threeHead] at h
  · next c' t' heq =>
    injection heq with h1 h2
    subst h1; subst h2
    rfl
  · next heq => cases heq

theorem collapseFuel_three (fuel : Nat) (t : List Char) :
    collapseFuel (fuel + 1) ('\n' :: '\n' :: '\n' :: t)
      = '\n' :: '\n' :: collapseFuel fuel (t.dropWhile (fun c => c == '\n')) := rfl

theorem collapseFuel_cons_head (fuel : Nat) (c : Char) (t : List Char) :
    ∃ v, collapseFuel fuel (c :: t) = c :: v := by
  cases fuel with
  | zero => exact ⟨t, rfl⟩
  | succ n =>
    cases ht : threeHead (c :: t) with
    | false => exact ⟨collapseFuel n t, collapseFuel_not3 ht n⟩
    | true =>
      obtain ⟨t', heq⟩ := threeHead_eq_true ht
      injection heq with hc ht2
      subst hc; subst ht2
      exact ⟨'\n' :: collapseFuel n (t'.dropWhile (fun c => c == '\n')), rfl⟩

theorem hasTriple_cons3 (c1 c2 c3 : Char) (r : List Char) :
    hasTriple (c1 :: c2 :: c3 :: r)
      = ((c1 == '\n' && c2 == '\n' && c3 == '\n') || hasTriple (c2 :: c3 :: r)) := rfl

theorem hasTriple_head_ne {c : Char} (hc : c ≠ '\n') (r : List Char) :
    hasTriple (c :: r) = hasTriple r := by
  match r with
  | [] => rfl
  | [d] => rfl
  | d :: e :: u => simp [hasTriple_cons3, hc]

theorem hasTriple_second_ne {c2 : Char} (hc : c2 ≠ '\n') (c1 : Char) (r : List Char) :
    hasTriple (c1 :: c2 :: r) = hasTriple (c2 :: r) := by
  match r with
  | [] => rfl
  | d :: u => simp [hasTriple_cons3, hc]

theorem hasTriple_third_ne {c3 : Char} (hc : c3 ≠ '\n') (c1 c2 : Char) (r : List Char) :
    hasTriple (c1 :: c2 :: c3 :: r) = hasTriple (c2 :: c3 :: r) := by
  simp [hasTriple_cons3, hc]

theorem hasTriple_tail {c : Char} {t : List Char} (h : hasTriple (c :: t) = false) :
    hasTriple t = false := by
  match t, h with
  | [], _ => rfl
  | [d], _ => rfl
  | d :: e :: u, h =>
    rw [hasTriple_cons3] at h
    exact (Bool.or_eq_false_iff.mp h).2

theorem threeHead_false_of_hasTriple {s : List Char} (h : hasTriple s = false) :
    threeHead s = false := by
  match s, h with
  | [], _ => rfl
  | [c], _ => rfl
  | [c, d], _ => rfl
  | c1 :: c2 :: c3 :: r, h =>
    rw [hasTriple_cons3] at h
    simp only [threeHead]
    exact (Bool.or_eq_false_iff.mp h).1

theorem drop_countWhile (k : Cls) (t : List Char) :
    t.drop (countWhile k t) = t.dropWhile k.holds := by
  have h := List.drop_left (t.takeWhile k.holds) (t.dropWhile k.holds)
  rw [List.takeWhile_append_dropWhile] at h
  exact h

theorem range_map_succ_rev (n : Nat) :
    ((List.range (n + 1)).map (· + 1)).reverse = (n + 1) :: ((List.range n).map (· + 1)).reverse := by
  rw [List.range_succ]
  simp

theorem length_dropWhile_le (p : Char → Bool) (t : List Char) :
    (t.dropWhile p).length ≤ t.length := by
  have h := congrArg List.length (List.takeWhile_append_dropWhile (p := p) (l := t))
  rw [List.length_append] at h
  omega

/-- For a pattern without the `^` anchor, `tryHere` is just the matcher. -/
theorem tryHere_nobol {p : Pattern} (hb : p.bol = false) (a : Bool) (s : List Char) :
    tryHere p a s = mtch p.re s [] (fun s' g => some (g, s')) := by
  simp [tryHere, hb]

/-- The pattern `'\n\n\n+'` matches at a position starting with three
newlines, greedily consuming the whole newline run. -/
theorem tryHere_nl3_three (a : Bool) (t : List Char) :
    tryHere nl3Pat a ('\n' :: '\n' :: '\n' :: t)
      = some ([], t.dropWhile (fun c => c == '\n')) := by
  rw [tryHere_nobol rfl]
  show mtch (RE.cat [.str "\n\n", .plus (.ch '\n')]) _ [] _ = _
  simp only [RE.cat, RE.str, List.foldr, mtch]
  have hstrip : stripPre ("\n\n".data) ('\n' :: '\n' :: '\n' :: t) = some ('\n' :: t) := by
    simp [stripPre]
  simp only [hstrip]
  have hcw : countWhile (.ch '\n') ('\n' :: t) = countWhile (.ch '\n') t + 1 := by
    simp [countWhile, List.takeWhile_cons, Cls.holds]
  rw [hcw, range_map_succ_rev]
  simp only [firstSome, mtch]
  have hdrop1 : ('\n' :: t).drop (countWhile (.ch '\n') t + 1)
      = t.drop (countWhile (.ch '\n') t) := rfl
  rw [hdrop1, drop_countWhile]
  rfl

/-- The pattern `'\n\n\n+'` does not match at a position not starting with
three newlines. -/
theorem tryHere_nl3_none : ∀ {s : List Char}, threeHead s = false →
    ∀ (a : Bool), tryHere nl3Pat a s = none := by
  intro s h a
  rw [tryHere_nobol rfl]
  show mtch (RE.cat [.str "\n\n", .plus (.ch '\n')]) _ [] _ = _
  match s, h with
  | [], _ => rfl
  | [c], _ =>
    simp only [RE.cat, RE.str, List.foldr, mtch]
    by_cases hc : ('\n' : Char) == c
    · simp [stripPre, hc]
    · simp [stripPre, hc]
  | [c, d], _ =>
    simp only [RE.cat, RE.str, List.foldr, mtch]
    by_cases hc : ('\n' : Char) == c
    · by_cases hd : ('\n' : Char) == d
      · simp [stripPre, hc, hd, countWhile, firstSome]
      · simp [stripPre, hc, hd]
    · simp [stripPre, hc]
  | c :: d :: e :: u, h =>
    simp only [RE.cat, RE.str, List.foldr, mtch]
    by_cases hc : ('\n' : Char) == c
    · by_cases hd : ('\n' : Char) == d
      · have hc' : '\n' = c := beq_iff_eq.mp hc
        have hd' : '\n' = d := beq_iff_eq.mp hd
        subst hc'; subst hd'
        have he : (e == '\n') = false := by
          simp only [threeHead] at h
          simpa using h
        have hstrip : stripPre ("\n\n".data) ('\n' :: '\n' :: e :: u) = some (e :: u) := by
          simp [stripPre]
        simp only [hstrip]
        have hcw : countWhile (.ch '\n') (e :: u) = 0 := by
          simp [countWhile, List.takeWhile_cons, Cls.holds, he]
        rw [hcw]
        rfl
      · simp [stripPre, hc, hd]
    · simp [stripPre, hc]

/-- The global substitution `re.sub('\n\n\n+', '\n\n', s)` equals the direct
run-collapsing function, fuel-synchronised. -/
theorem subFuel_nl3_eq_collapse :
    ∀ (fuel : Nat) (a : Bool) (s : List Char), s.length < fuel →
      subFuel nl3Pat (fun _ => ['\n', '\n']) fuel none a s = collapseFuel fuel s := by
  intro fuel
  induction fuel with
  | zero => intro a s h; rfl
  | succ n ih =>
    intro a s hlen
    cases ht3 : threeHead s with
    | true =>
      obtain ⟨t, rfl⟩ := threeHead_eq_true ht3
      have ht := tryHere_nl3_three a t
      have hsuf := tryHere_suffix ht
      have hdrop := suffix_drop_eq hsuf
      have hlen_rest : (t.dropWhile (fun c => c == '\n')).length ≤ t.length :=
        length_dropWhile_le _ t
      have hne : ¬ (('\n' :: '\n' :: '\n' :: t).length
          - (t.dropWhile (fun c => c == '\n')).length = 0) := by
        simp only [List.length_cons]
        omega
      simp only [subFuel]
      rw [if_neg (show ¬ ((none : Option Nat) = some 0) by simp)]
      simp only [ht]
      rw [if_neg hne, hdrop]
      rw [collapseFuel_three]
      have : decr none = none := rfl
      rw [this, ih _ _ (by simp only [List.length_cons] at hlen ⊢; omega)]
      rfl
    | false =>
      have ht := tryHere_nl3_none ht3 a
      cases s with
      | nil => simp [subFuel, ht, collapseFuel_nil]
      | cons c t =>
        simp only [subFuel]
        rw [if_neg (show ¬ ((none : Option Nat) = some 0) by simp)]
        simp only [ht]
        rw [ih _ _ (by simp only [List.length_cons] at hlen; omega)]
        rw [collapseFuel_not3 ht3]

/-- The collapsed buffer has no three consecutive newlines. -/
theorem hasTriple_collapseFuel_false :
    ∀ (fuel : Nat) (s : List Char), s.length < fuel →
      hasTriple (collapseFuel fuel s) = false := by
  intro fuel
  induction fuel with
  | zero => intro s h; exact absurd h (Nat.not_lt_zero _)
  | succ n ih =>
    intro s hlen
    cases ht3 : threeHead s with
    | true =>
      obtain ⟨t, rfl⟩ := threeHead_eq_true ht3
      rw [collapseFuel_three]
      have hlen_rest : (t.dropWhile (fun c => c == '\n')).length ≤ t.length :=
        length_dropWhile_le _ t
      have hrec : hasTriple (collapseFuel n (t.dropWhile (fun c => c == '\n'))) = false :=
        ih _ (by simp only [List.length_cons] at hlen; omega)
      cases hw : t.dropWhile (fun c => c == '\n') with
      | nil => rw [collapseFuel_nil]; rfl
      | cons d u =>
        have hd : d ≠ '\n' := by
          have := List.head?_dropWhile_not (fun c => c == '\n') t
          rw [hw] at this
          simpa using this
        obtain ⟨v, hv⟩ := collapseFuel_cons_head n d u
        rw [hv]
        rw [hasTriple_third_ne hd, hasTriple_second_ne hd]
        rw [hw, hv] at hrec
        exact hrec
    | false =>
      cases s with
      | nil => simp [collapseFuel_nil, hasTriple]
      | cons c t =>
        rw [collapseFuel_not3 ht3]
        have hrec : hasTriple (collapseFuel n t) = false :=
          ih _ (by simp only [List.length_cons] at hlen; omega)
        by_cases hc : c = '\n'
        · subst hc
          -- threeHead ('\n' :: t) = false: t does not start with two newlines
          cases t with
          | nil => simp [collapseFuel_nil, hasTriple]
          | cons d u =>
            by_cases hd : d = '\n'
            · subst hd
              cases u with
              | nil =>
                -- t = ['\n']; collapseFuel n ['\n'] = '\n' :: v with v = collapse of []
                obtain ⟨v, hv⟩ := collapseFuel_cons_head n '\n' []
                rw [hv]
                have hv0 : v = [] := by
                  cases n with
                  | zero =>
                    injection hv with h1 h2
                    exact h2.symm
                  | succ m =>
                    rw [collapseFuel_not3 (by rfl) m, collapseFuel_nil] at hv
                    injection hv with h1 h2
                    exact h2.symm
                rw [hv0]
                rfl
              | cons e w =>
                have he : e ≠ '\n' := by
                  simp only [threeHead] at ht3
                  simpa using ht3
                -- collapseFuel n ('\n' :: e :: w) = '\n' :: e :: v
                have hshape : ∃ v, collapseFuel n ('\n' :: e :: w) = '\n' :: e :: v := by
                  cases n with
                  | zero => exact ⟨w, rfl⟩
                  | succ m =>
                    rw [collapseFuel_not3 (by cases w <;> simp [threeHead, he]) m]
                    obtain ⟨v, hv⟩ := collapseFuel_cons_head m e w
                    exact ⟨v, by rw [hv]⟩
                obtain ⟨v, hv⟩ := hshape
                rw [hv]
                rw [hasTriple_third_ne he, hasTriple_second_ne he]
                rw [hv] at hrec
                rwa [hasTriple_second_ne he] at hrec
            · obtain ⟨v, hv⟩ := collapseFuel_cons_head n d u
              rw [hv]
              rw [hasTriple_second_ne hd]
              rw [hv] at hrec
              exact hrec
        · rw [hasTriple_head_ne hc]
          exact hrec

/-- A buffer with no three consecutive newlines is a fixed point of
collapsing. -/
theorem collapseFuel_of_no_triple :
    ∀ (fuel : Nat) (s : List Char), hasTriple s = false → collapseFuel fuel s = s := by
  intro fuel
  induction fuel with
  | zero => intro s _; rfl
  | succ n ih =>
    intro s h
    cases s with
    | nil => rfl
    | cons c t =>
      rw [collapseFuel_not3 (threeHead_false_of_hasTriple h)]
      rw [ih t (hasTriple_tail h)]

/-- C8: the blank-line collapsing operation equals the direct
run-collapsing function (every run of three or more newline characters —
two or more consecutive blank lines — becomes exactly two newlines — one
blank line), and it is idempotent. -/
theorem claim_C8_remove_double_newlines (cfile : String) :
    remove_double_newlines cfile = ⟨collapseBlankRuns cfile.data⟩ ∧
    remove_double_newlines (remove_double_newlines cfile) = remove_double_newlines cfile := by
  have key : ∀ t : String, remove_double_newlines t = ⟨collapseBlankRuns t.data⟩ := by
    intro t
    show String.mk (pySub nl3Pat (fun _ => ['\n', '\n']) none t.data) = _
    rw [pySub, subFuel_nl3_eq_collapse _ _ _ (Nat.lt_succ_self _)]
    rfl
  refine ⟨key cfile, ?_⟩
  rw [key cfile, key ⟨collapseBlankRuns cfile.data⟩]
  have hnt : hasTriple (collapseBlankRuns cfile.data) = false :=
    hasTriple_collapseFuel_false _ _ (Nat.lt_succ_self _)
  show String.mk (collapseFuel _ _) = _
  rw [collapseFuel_of_no_triple _ _ hnt]

/-! ### C4: the command dispatcher -/

/-- The selection behaviour of `get_command_from_argv` on argument vectors
of nonempty tokens: if the first non-flag token is a known command it is
returned; if no non-flag token is a known command, `None` is returned. -/
theorem get_command_from_argv_spec (possible_cmds : List String) :
    ∀ (argv : List String), (∀ t ∈ argv, t ≠ "") →
      (∀ t, firstNonFlagToken argv = some t → t ∈ possible_cmds →
        get_command_from_argv possible_cmds argv = .ok (some t)) ∧
      ((∀ t ∈ argv, ¬(t.data.head? ≠ some '-' ∧ t ∈ possible_cmds)) →
        get_command_from_argv possible_cmds argv = .ok none) := by
  intro argv
  induction argv with
  | nil =>
    intro _
    exact ⟨fun t h => by simp [firstNonFlagToken] at h, fun _ => rfl⟩
  | cons arg rest ih =>
    intro hne
    have hrest := ih (fun t ht => hne t (by simp [ht]))
    have harg : arg ≠ "" := hne arg (by simp)
    obtain ⟨c, cs, hdata⟩ : ∃ c cs, arg.data = c :: cs := by
      obtain ⟨d⟩ := arg
      cases d with
      | nil => exact absurd rfl harg
      | cons c cs => exact ⟨c, cs, rfl⟩
    constructor
    · intro t hfirst htmem
      simp only [get_command_from_argv, hdata]
      by_cases hc : c == '-'
      · rw [if_pos hc]
        simp only [firstNonFlagToken, hdata] at hfirst
        rw [if_pos (by simp [beq_iff_eq.mp hc])] at hfirst
        exact hrest.1 t hfirst htmem
      · rw [if_neg hc]
        simp only [firstNonFlagToken, hdata] at hfirst
        rw [if_neg (by simpa using fun h => hc (by simp [h]))] at hfirst
        injection hfirst with hfirst
        subst hfirst
        rw [if_pos (by simpa using htmem)]
    · intro hnone
      simp only [get_command_from_argv, hdata]
      by_cases hc : c == '-'
      · rw [if_pos hc]
        exact hrest.2 (fun t ht => hnone t (by simp [ht]))
      · rw [if_neg hc]
        have hargsel := hnone arg (by simp)
        have hmem : arg ∉ possible_cmds := by
          intro hm
          exact hargsel ⟨by simp [hdata]; exact fun h => hc (by simp [h]), hm⟩
        rw [if_neg (by simpa using hmem)]
        exact hrest.2 (fun t ht => hnone t (by simp [ht]))

/-- C4 (amended to argument vectors of nonempty tokens): the dispatcher
selects the operation named by the first non-flag token when that token is
a known command name or alias; when no token selects a command, `main`
prints usage and exits with status 2. -/
theorem claim_C4_dispatch (argv : List String) (hne : ∀ t ∈ argv, t ≠ "") :
    (∀ t, firstNonFlagToken argv = some t → t ∈ all_commands →
      main_dispatch argv = MainOutcome.run t) ∧
    ((∀ t ∈ argv, ¬(t.data.head? ≠ some '-' ∧ t ∈ all_commands)) →
      main_dispatch argv = MainOutcome.usage 2) := by
  have h := get_command_from_argv_spec all_commands argv hne
  constructor
  · intro t h1 h2
    simp [main_dispatch, h.1 t h1 h2]
  · intro h1
    simp [main_dispatch, h.2 h1]

/-- Counterexample to C4 as stated over every argument vector: on the
argument vector `[""]` no token selects a command, yet the process does
not print usage and exit — evaluating `arg[0]` on the empty token raises
an uncaught `IndexError` (a crash). -/
theorem claim_C4_counterexample :
    main_dispatch [""] = MainOutcome.crash ∧
    main_dispatch [""] ≠ MainOutcome.usage 2 := by
  constructor
  · rfl
  · intro h
    cases h.symm.trans (rfl : main_dispatch [""] = MainOutcome.crash)

/-- Witness for C4: a known command is selected; an all-flag vector gives
usage and exit status 2. -/
theorem claim_C4_witness :
    main_dispatch ["add", "extra"] = MainOutcome.run "add" ∧
    main_dispatch ["-d", "-n"] = MainOutcome.usage 2 := by
  refine ⟨(claim_C4_dispatch ["add", "extra"] (by decide)).1 "add" (by decide) (by decide),
    (claim_C4_dispatch ["-d", "-n"] (by decide)).2 (by decide)⟩

/-! ### C6: the Add operation's block-name validation -/

/-- `re.match('<class>+', s)` is anchored at the start only: it succeeds
exactly when the first character is in the class. -/
theorem reMatch_plus (k : Cls) :
    (∀ c cs, reMatch (RE.plus k) (c :: cs) = k.holds c) ∧
    reMatch (RE.plus k) [] = false := by
  constructor
  · intro c cs
    show (mtch (RE.plus k) (c :: cs) [] _).isSome = _
    simp only [mtch]
    cases hk : k.holds c with
    | false =>
      have hcw : countWhile k (c :: cs) = 0 := by
        simp [countWhile, List.takeWhile_cons, hk]
      rw [hcw]
      rfl
    | true =>
      have hcw : countWhile k (c :: cs) = countWhile k cs + 1 := by
        simp [countWhile, List.takeWhile_cons, hk]
      rw [hcw, range_map_succ_rev]
      rfl
  · rfl

/-- C6 (amended): the Add operation's block-name validation
(`re.match('[a-zA-Z0-9_]+', blockname)`) proceeds exactly when the FIRST
character of the name is in `[a-zA-Z0-9_]` (the match is anchored at the
start only, not a full match), and exits with status 2 exactly when the
name is empty or its first character is outside the class. -/
theorem claim_C6_blockname_check (name : String) :
    (add_blockname_check name = .ok () ↔
      ∃ c cs, name.data = c :: cs ∧ Cls.word.holds c = true) ∧
    (add_blockname_check name = .error 2 ↔
      ¬ ∃ c cs, name.data = c :: cs ∧ Cls.word.holds c = true) := by
  have key : reMatch (RE.plus .word) name.data = true ↔
      ∃ c cs, name.data = c :: cs ∧ Cls.word.holds c = true := by
    cases hd : name.data with
    | nil =>
      rw [(reMatch_plus .word).2]
      simp
    | cons c cs =>
      rw [(reMatch_plus .word).1]
      constructor
      · intro h
        exact ⟨c, cs, rfl, h⟩
      · rintro ⟨c', cs', heq, hh⟩
        injection heq with h1 h2
        subst h1
        exact hh
  cases hb : reMatch (RE.plus .word) name.data with
  | true =>
    have hk := key.mp hb
    refine ⟨Iff.intro (fun _ => hk) (fun _ => by simp [add_blockname_check, hb]), ?_⟩
    exact Iff.intro (fun h => absurd h (by simp [add_blockname_check, hb]))
      (fun h => absurd hk h)
  | false =>
    have hk : ¬ ∃ c cs, name.data = c :: cs ∧ Cls.word.holds c = true := by
      intro hx
      rw [key.mpr hx] at hb
      cases hb
    refine ⟨Iff.intro (fun h => absurd h (by simp [add_blockname_check, hb]))
      (fun h => absurd h hk), ?_⟩
    exact Iff.intro (fun _ => hk) (fun _ => by simp [add_blockname_check, hb])

/-- Counterexample to C6 as stated: the name `foo!` contains `!`, a
character outside `[a-zA-Z0-9_]`, yet the validation passes (the Add
operation proceeds instead of exiting with status 2). -/
theorem claim_C6_counterexample :
    add_blockname_check "foo!" = .ok () ∧
    '!' ∈ ("foo!" : String).data ∧ Cls.word.holds '!' = false := by
  refine ⟨by rfl, by decide, by rfl⟩

/-! ### C9: the Remove operation's empty pattern -/

/-- `re.search('.', s)` finds a match exactly when `s` has a character
other than a newline. -/
theorem hasMatch_dotPat (s : List Char) :
    hasMatch dotPat s = true ↔ ∃ c ∈ s, c ≠ '\n' := by
  induction s with
  | nil => simp [hasMatch, searchSplit, tryHere, dotPat, mtch]
  | cons c s ih =>
    by_cases hc : c = '\n'
    · subst hc
      have ht : tryHere dotPat true ('\n' :: s) = none := by
        rw [tryHere_nobol rfl]
        simp [dotPat, mtch, Cls.holds]
      have ht' : ∀ a, tryHere dotPat a ('\n' :: s) = none := by
        intro a
        rw [tryHere_nobol rfl]
        simp [dotPat, mtch, Cls.holds]
      constructor
      · intro h
        simp only [hasMatch, searchSplit, ht] at h
        rw [hasMatch] at ih
        cases hrec : searchSplit dotPat ('\n' == '\n') s with
        | none => rw [hrec] at h; cases h
        | some v =>
          have : hasMatch dotPat s = true := by
            rw [hasMatch]
            have : ('\n' == '\n') = true := by decide
            rw [this] at hrec
            rw [hrec]
            rfl
          obtain ⟨d, hd, hdn⟩ := ih.mp this
          exact ⟨d, by simp [hd], hdn⟩
      · rintro ⟨d, hd, hdn⟩
        simp only [List.mem_cons] at hd
        cases hd with
        | inl h1 => exact absurd h1 hdn
        | inr h1 =>
          have hs : hasMatch dotPat s = true := ih.mpr ⟨d, h1, hdn⟩
          rw [hasMatch] at hs ⊢
          simp only [searchSplit, ht]
          have hbeq : ('\n' == '\n') = true := by decide
          rw [hbeq]
          cases hrec : searchSplit dotPat true s with
          | none => rw [hrec] at hs; cases hs
          | some v => obtain ⟨p, m, g, r⟩ := v; rfl
    · have ht : ∀ a, tryHere dotPat a (c :: s) = some ([], s) := by
        intro a
        rw [tryHere_nobol rfl]
        simp [dotPat, mtch, Cls.holds, hc]
      constructor
      · intro _
        exact ⟨c, by simp, hc⟩
      · intro _
        rw [hasMatch]
        simp [searchSplit, ht]

/-- C9 (amended): an empty resolved deletion pattern is replaced by the
regex `'.'`, under which every candidate file whose basename has at least
one non-newline character passes the filter. -/
theorem claim_C9_empty_pattern (optBlockName : Option String) (args : List String)
    (interactive : String) (path : String) (files : List String) (f : String)
    (hmem : f ∈ files) (hch : ∃ c ∈ (pyBasename f).data, c ≠ '\n') :
    remove_resolve_pattern (some "") optBlockName args interactive = "." ∧
    f ∈ remove_filter_files dotPat path files := by
  refine ⟨rfl, ?_⟩
  induction files with
  | nil => cases hmem
  | cons g files ih =>
    simp only [remove_filter_files, List.foldr] at *
    rcases List.mem_cons.mp hmem with h1 | h1
    · subst h1
      rw [if_pos ((hasMatch_dotPat _).mpr hch)]
      simp
    · have hthis := ih h1
      simp only [List.mem_append]
      exact Or.inr hthis

/-- Counterexample to C9's parenthetical as stated: the file `lib/\n` has a
non-empty basename (`"\n"`), yet it does not pass the `'.'` filter
(`re.search('.', '\n')` finds nothing, since `.` does not match a newline). -/
theorem claim_C9_counterexample :
    remove_filter_files dotPat "lib" ["lib/\n"] = [] ∧
    pyBasename "lib/\n" ≠ "" := by
  constructor
  · rfl
  · intro h
    cases (congrArg String.data h).symm.trans (rfl : (pyBasename "lib/\n").data = ['\n'])

/-- Witness for C9: a normal file passes the `'.'` filter. -/
theorem claim_C9_witness :
    remove_resolve_pattern (some "") none [] "" = "." ∧
    "lib/foo.cc" ∈ remove_filter_files dotPat "lib" ["lib/foo.cc"] :=
  claim_C9_empty_pattern none [] "" "lib" ["lib/foo.cc"] "lib/foo.cc"
    (by decide) (by decide)

/-! ### C10: quitting the Remove confirmation loop -/

theorem run_subdir_loop_quit (edit : String → String → String)
    (pairs2 : List (String × String)) (f r : String) (disk : String) :
    ∀ (pairs1 : List (String × String)) (acc : List String) (buf : String),
      (∀ p ∈ pairs1, pyAnswer p.2 ≠ "a" ∧ pyAnswer p.2 ≠ "q") →
      pyAnswer r = "q" →
      run_subdir_loop edit (pairs1 ++ (f, r) :: pairs2) false acc buf disk
        = .exited 0 (acc ++ loopDeleted pairs1) disk := by
  intro pairs1
  induction pairs1 with
  | nil =>
    intro acc buf _ hq
    simp only [List.nil_append, run_subdir_loop]
    rw [hq]
    simp [loopDeleted]
  | cons p rest ih =>
    intro acc buf h1 hq
    obtain ⟨g, resp⟩ := p
    have hna := (h1 (g, resp) (by simp)).1
    have hnq := (h1 (g, resp) (by simp)).2
    have hrest : ∀ q ∈ rest, pyAnswer q.2 ≠ "a" ∧ pyAnswer q.2 ≠ "q" :=
      fun q hqm => h1 q (by simp [hqm])
    simp only [List.cons_append, run_subdir_loop, List.append_eq]
    rw [if_neg (show ¬ ((false : Bool) = true) by simp)]
    rw [if_neg (show ¬ ((pyAnswer resp == "q") = true) by simpa using hnq)]
    have hy : (if (pyAnswer resp == "a") = true then true else false) = false := by
      simp [hna]
    by_cases hn : pyAnswer resp = "n"
    · rw [if_pos (show (pyAnswer resp == "n") = true by simpa using hn)]
      rw [hy, ih acc buf hrest hq]
      simp [loopDeleted, hn]
    · rw [if_neg (show ¬ ((pyAnswer resp == "n") = true) by simpa using hn)]
      rw [hy, ih (acc ++ [pyBasename g]) (edit (pyBasename g) buf) hrest hq]
      simp [loopDeleted, hn]

/-- C10: in the Remove operation's per-subdirectory loop started with the
`yes` flag unset, answering `q` at any prompt (none of the earlier prompts
answered `a` or `q`) terminates the process immediately with exit status 0;
the files answered before it (except those answered `n`) are already
deleted from disk, but the CMakeLists.txt on disk still holds its original
content — the editor's accumulated in-memory edits are only written after
the loop completes. -/
theorem claim_C10_quit_unwritten (edit : String → String → String)
    (pairs1 pairs2 : List (String × String)) (f r : String) (cmake0 : String)
    (h1 : ∀ p ∈ pairs1, pyAnswer p.2 ≠ "a" ∧ pyAnswer p.2 ≠ "q")
    (hq : pyAnswer r = "q") :
    run_subdir edit (pairs1 ++ (f, r) :: pairs2) false cmake0
      = .exited 0 (loopDeleted pairs1) cmake0 := by
  rw [run_subdir, run_subdir_loop_quit edit pairs2 f r cmake0 pairs1 [] cmake0 h1 hq]
  simp

/-- Witness for C10: deleting one file, then answering `q`; the file is
deleted but the CMakeLists content on disk is untouched. -/
theorem claim_C10_witness :
    run_subdir (fun b buf => remove_value (RE.str "add_library") (RE.str b) RE.eps buf)
      [("lib/a.cc", "y"), ("lib/b.cc", "q"), ("lib/c.cc", "y")] false
      "add_library(a.cc b.cc)\n"
      = .exited 0 ["a.cc"] "add_library(a.cc b.cc)\n" := by
  have h := claim_C10_quit_unwritten
    (fun b buf => remove_value (RE.str "add_library") (RE.str b) RE.eps buf)
    [("lib/a.cc", "y")] [("lib/c.cc", "y")] "lib/b.cc" "q" "add_library(a.cc b.cc)\n"
    (by decide) (by decide)
  exact h.trans (by decide)

/-! ### C5: header guards of the primary-source templates -/

/-- Computation of `get_template` on `block_h` when the block type is a key
of `grtypelist` and the license wraps successfully. -/
theorem get_template_block_h (modname blockname full bt arglist license insig outsig L gbt :
    String) (hL : str_to_fancyc_comment license = some L) (hg : grtypelist bt = some gbt) :
    get_template "block_h" modname blockname full bt arglist license insig outsig
      = some (Templates_block_h L (pyUpper full) modname gbt full (pyUpper modname) blockname
          arglist (strip_default_values arglist)
          (if bt == "general" then Templates_generalwork_h
           else if bt == "hiercpp" then "" else Templates_work_h)) := by
  simp only [get_template, hL, hg]
  norm_num

/-- Computation of `get_template` on `impl_h` for the `impl` block type. -/
theorem get_template_impl_h (modname blockname full arglist license insig outsig L : String)
    (hL : str_to_fancyc_comment license = some L) :
    get_template "impl_h" modname blockname full "impl" arglist license insig outsig
      = some (Templates_impl_h L (pyUpper full) full arglist) := by
  simp only [get_template, hL, grtypelist]
  norm_num
  exact fun h => absurd h (by decide)

/-- The `block_h` template contains the `#ifndef` / `#define` / `#endif`
lines of a header guard named `INCLUDED_<fullblocknameupper>_H`. -/
theorem Templates_block_h_guards (license U modname gbt full MU blockname arglist astr wf :
    String) :
    containsStr (Templates_block_h license U modname gbt full MU blockname arglist astr wf)
        ("#ifndef INCLUDED_" ++ U ++ "_H") ∧
    containsStr (Templates_block_h license U modname gbt full MU blockname arglist astr wf)
        ("#define INCLUDED_" ++ U ++ "_H") ∧
    containsStr (Templates_block_h license U modname gbt full MU blockname arglist astr wf)
        ("#endif /* INCLUDED_" ++ U ++ "_H */") := by
  refine ⟨⟨"/* -*- c++ -*- */\n" ++ license ++ "\n",
      "\n" ++ "#define INCLUDED_" ++ U ++ "_H" ++ "\n\n#include <" ++ modname ++
        "_api.h>\n#include <" ++ gbt ++ ".h>\n\nclass " ++ full ++
        ";\ntypedef boost::shared_ptr<" ++ full ++ "> " ++ full ++ "_sptr;\n\n" ++ MU ++
        "_API " ++ full ++ "_sptr " ++ modname ++ "_make_" ++ blockname ++ " (" ++ arglist ++
        ");\n\n/*!\n * \\brief <+description+>\n *\n */\nclass " ++ MU ++ "_API " ++
        full ++ " : public " ++ gbt ++ "\n\x7b\n\tfriend " ++ MU ++ "_API " ++ full ++
        "_sptr " ++ modname ++ "_make_" ++ blockname ++ " (" ++ astr ++ ");\n\n\t" ++
        full ++ " (" ++ astr ++ ");\n\n public:\n\t~" ++ full ++ " ();\n\n" ++ wf ++
        "\n\x7d;\n\n" ++ "#endif /* INCLUDED_" ++ U ++ "_H */" ++ "\n\n", ?_⟩,
    ⟨"/* -*- c++ -*- */\n" ++ license ++ "\n" ++ "#ifndef INCLUDED_" ++ U ++ "_H" ++ "\n",
      "\n\n#include <" ++ modname ++
        "_api.h>\n#include <" ++ gbt ++ ".h>\n\nclass " ++ full ++
        ";\ntypedef boost::shared_ptr<" ++ full ++ "> " ++ full ++ "_sptr;\n\n" ++ MU ++
        "_API " ++ full ++ "_sptr " ++ modname ++ "_make_" ++ blockname ++ " (" ++ arglist ++
        ");\n\n/*!\n * \\brief <+description+>\n *\n */\nclass " ++ MU ++ "_API " ++
        full ++ " : public " ++ gbt ++ "\n\x7b\n\tfriend " ++ MU ++ "_API " ++ full ++
        "_sptr " ++ modname ++ "_make_" ++ blockname ++ " (" ++ astr ++ ");\n\n\t" ++
        full ++ " (" ++ astr ++ ");\n\n public:\n\t~" ++ full ++ " ();\n\n" ++ wf ++
        "\n\x7d;\n\n" ++ "#endif /* INCLUDED_" ++ U ++ "_H */" ++ "\n\n", ?_⟩,
    ⟨"/* -*- c++ -*- */\n" ++ license ++ "\n" ++ "#ifndef INCLUDED_" ++ U ++ "_H" ++ "\n" ++
        "#define INCLUDED_" ++ U ++ "_H" ++ "\n\n#include <" ++ modname ++
        "_api.h>\n#include <" ++ gbt ++ ".h>\n\nclass " ++ full ++
        ";\ntypedef boost::shared_ptr<" ++ full ++ "> " ++ full ++ "_sptr;\n\n" ++ MU ++
        "_API " ++ full ++ "_sptr " ++ modname ++ "_make_" ++ blockname ++ " (" ++ arglist ++
        ");\n\n/*!\n * \\brief <+description+>\n *\n */\nclass " ++ MU ++ "_API " ++
        full ++ " : public " ++ gbt ++ "\n\x7b\n\tfriend " ++ MU ++ "_API " ++ full ++
        "_sptr " ++ modname ++ "_make_" ++ blockname ++ " (" ++ astr ++ ");\n\n\t" ++
        full ++ " (" ++ astr ++ ");\n\n public:\n\t~" ++ full ++ " ();\n\n" ++ wf ++
        "\n\x7d;\n\n", "\n\n", ?_⟩⟩ <;>
  · simp only [Templates_block_h, String.append_assoc]

/-- The `impl_h` template's `#ifndef`/`#define` lines name the guard
`INCLUDED_QA_<fullblocknameupper>_H`, while its `#endif` comment names
`INCLUDED_<fullblocknameupper>_H`. -/
theorem Templates_impl_h_guards (license U full arglist : String) :
    containsStr (Templates_impl_h license U full arglist)
        ("#ifndef INCLUDED_QA_" ++ U ++ "_H") ∧
    containsStr (Templates_impl_h license U full arglist)
        ("#define INCLUDED_QA_" ++ U ++ "_H") ∧
    containsStr (Templates_impl_h license U full arglist)
        ("#endif /* INCLUDED_" ++ U ++ "_H */") := by
  refine ⟨⟨"/* -*- c++ -*- */\n" ++ license ++ "\n",
      "\n" ++ "#define INCLUDED_QA_" ++ U ++ "_H" ++ "\n\nclass " ++ full ++
        "\n\x7b\n public:\n\t" ++ full ++ "(" ++ arglist ++ ");\n\t~" ++ full ++
        "();\n\n\n private:\n\n\x7d;\n\n" ++ "#endif /* INCLUDED_" ++ U ++ "_H */" ++
        "\n\n", ?_⟩,
    ⟨"/* -*- c++ -*- */\n" ++ license ++ "\n" ++ "#ifndef INCLUDED_QA_" ++ U ++ "_H" ++ "\n",
      "\n\nclass " ++ full ++
        "\n\x7b\n public:\n\t" ++ full ++ "(" ++ arglist ++ ");\n\t~" ++ full ++
        "();\n\n\n private:\n\n\x7d;\n\n" ++ "#endif /* INCLUDED_" ++ U ++ "_H */" ++
        "\n\n", ?_⟩,
    ⟨"/* -*- c++ -*- */\n" ++ license ++ "\n" ++ "#ifndef INCLUDED_QA_" ++ U ++ "_H" ++
        "\n" ++ "#define INCLUDED_QA_" ++ U ++ "_H" ++ "\n\nclass " ++ full ++
        "\n\x7b\n public:\n\t" ++ full ++ "(" ++ arglist ++ ");\n\t~" ++ full ++
        "();\n\n\n private:\n\n\x7d;\n\n", "\n\n", ?_⟩⟩ <;>
  · simp only [Templates_impl_h, String.append_assoc]

/-- C5 (amended): for the kinds with a C++ primary-source template —
`sync`, `decimator`, `interpolator`, `general`, `hiercpp`, and
`sink`/`source` after their normalization to `sync` — rendering `block_h`
yields text with matching `#ifndef`/`#define`/`#endif` guard lines named
`INCLUDED_<upper(module_unit)>_H`.  For `impl`, rendering `impl_h` yields
an `#ifndef`/`#define` guard named `INCLUDED_QA_<upper>_H` whose `#endif`
comment names the different `INCLUDED_<upper>_H`.  For `hierpython`,
rendering the primary template (`hier_python`) raises `KeyError`
(`hierpython` is not a key of `grtypelist`), producing no text at all. -/
theorem claim_C5_header_guard (modname blockname arglist license inputsig outputsig L : String)
    (hL : str_to_fancyc_comment license = some L) :
    (∀ bt ∈ (["sink", "source", "sync", "decimator", "interpolator", "general",
        "hiercpp"] : List String),
      ∃ T, get_template "block_h" modname blockname (add_fullblockname modname bt blockname)
            (add_normalize bt inputsig outputsig).1 arglist license inputsig outputsig
            = some T ∧
        containsStr T
          ("#ifndef INCLUDED_" ++ pyUpper (add_fullblockname modname bt blockname) ++ "_H") ∧
        containsStr T
          ("#define INCLUDED_" ++ pyUpper (add_fullblockname modname bt blockname) ++ "_H") ∧
        containsStr T
          ("#endif /* INCLUDED_" ++ pyUpper (add_fullblockname modname bt blockname)
            ++ "_H */")) ∧
    (∃ T, get_template "impl_h" modname blockname (add_fullblockname modname "impl" blockname)
          (add_normalize "impl" inputsig outputsig).1 arglist license inputsig outputsig
          = some T ∧
      containsStr T
        ("#ifndef INCLUDED_QA_" ++ pyUpper (add_fullblockname modname "impl" blockname)
          ++ "_H") ∧
      containsStr T
        ("#define INCLUDED_QA_" ++ pyUpper (add_fullblockname modname "impl" blockname)
          ++ "_H") ∧
      containsStr T
        ("#endif /* INCLUDED_" ++ pyUpper (add_fullblockname modname "impl" blockname)
          ++ "_H */") ∧
      ("INCLUDED_QA_" ++ pyUpper (add_fullblockname modname "impl" blockname) ++ "_H"
        ≠ "INCLUDED_" ++ pyUpper (add_fullblockname modname "impl" blockname) ++ "_H")) ∧
    get_template "hier_python" modname blockname
      (add_fullblockname modname "hierpython" blockname) "hierpython" arglist license
      inputsig outputsig = none := by
  refine ⟨?_, ?_, ?_⟩
  · intro bt hbt
    fin_cases hbt <;>
      exact ⟨_, get_template_block_h _ _ _ _ _ _ _ _ _ _ hL rfl,
        (Templates_block_h_guards _ _ _ _ _ _ _ _ _ _).1,
        (Templates_block_h_guards _ _ _ _ _ _ _ _ _ _).2.1,
        (Templates_block_h_guards _ _ _ _ _ _ _ _ _ _).2.2⟩
  · refine ⟨_, get_template_impl_h _ _ _ _ _ _ _ _ hL,
      (Templates_impl_h_guards _ _ _ _).1,
      (Templates_impl_h_guards _ _ _ _).2.1,
      (Templates_impl_h_guards _ _ _ _).2.2, ?_⟩
    intro h
    have hlen := congrArg String.length h
    simp only [String.length_append] at hlen
    have h12 : ("INCLUDED_QA_" : String).length = 12 := rfl
    have h9 : ("INCLUDED_" : String).length = 9 := rfl
    rw [h12, h9] at hlen
    omega
  · simp [get_template, grtypelist]

/-- Counterexample to C5 as stated over every unit kind in the enumeration:
for kind `hierpython`, rendering the primary-source template
(`hier_python`) at a concrete module/unit name produces no text at all
(the `grtypelist` lookup in `get_template` raises `KeyError`), so no
header guard is produced. -/
theorem claim_C5_counterexample :
    get_template "hier_python" "howto" "foo" "howto_foo" "hierpython" "int x" "LIC\n"
      "sig" "sig" = none := rfl

/-- Witness for C5 at a concrete module and unit name. -/
theorem claim_C5_witness :
    ∃ T, get_template "block_h" "howto" "foo" (add_fullblockname "howto" "sync" "foo")
          (add_normalize "sync" "insig" "outsig").1 "int x" "LIC\n" "insig" "outsig"
          = some T ∧
      containsStr T
        ("#ifndef INCLUDED_" ++ pyUpper (add_fullblockname "howto" "sync" "foo") ++ "_H") ∧
      containsStr T
        ("#define INCLUDED_" ++ pyUpper (add_fullblockname "howto" "sync" "foo") ++ "_H") ∧
      containsStr T
        ("#endif /* INCLUDED_" ++ pyUpper (add_fullblockname "howto" "sync" "foo")
          ++ "_H */") :=
  (claim_C5_header_guard "howto" "foo" "int x" "LIC\n" "insig" "outsig" "/* LIC\n */\n"
    (by rfl)).1 "sync" (by decide)

/-- Witness for C7 at a concrete default-free argument list. -/
theorem claim_C7_witness :
    hasMatch defvalpatt ("int arg1, double arg2" : String).data = false ∧
    strip_default_values (strip_default_values "int arg1, double arg2") =
      strip_default_values "int arg1, double arg2" :=
  ⟨by decide, claim_C7_strip_idempotent "int arg1, double arg2" (by decide)⟩

end GrModtool


/-! ### C1: append_value / remove_value round trip

The spec claims the round trip restores the buffer.  In fact
`remove_value`'s group 2 starts only after `\s*`, so the separating space
that `append_value` inserted is captured into neither group and survives:
the round trip leaves `entry(args )`. -/

namespace GrModtool

theorem mtch_seq (a b : RE) (s : List Char) (g : Groups) (k) :
    mtch (.seq a b) s g k = mtch a s g (fun s' g' => mtch b s' g' k) := rfl

theorem mtch_grp (n : Nat) (r : RE) (s : List Char) (g : Groups) (k) :
    mtch (.grp n r) s g k
      = mtch r s g (fun s' g' => k s' ((n, s.take (s.length - s'.length)) :: g')) := rfl

theorem mtch_eps (s : List Char) (g : Groups) (k) : mtch .eps s g k = k s g := rfl

theorem stripPre_append (l s : List Char) : stripPre l (l ++ s) = some s := by
  induction l with
  | nil => rfl
  | cons c t ih => simp [stripPre, ih]

theorem mtch_lits_append (l s : List Char) (g : Groups) (k) :
    mtch (.lits l) (l ++ s) g k = k s g := by
  simp [mtch, stripPre_append]

theorem mtch_lits_cons (c : Char) (s : List Char) (g : Groups) (k) :
    mtch (.lits [c]) (c :: s) g k = k s g := by
  simp [mtch, stripPre]

theorem mtch_lits_not_pre {v s : List Char} (h : ∀ t, s ≠ v ++ t) (g : Groups) (k) :
    mtch (.lits v) s g k = none := by
  simp only [mtch]
  cases hs : stripPre v s with
  | none => rfl
  | some s' => exact absurd (stripPre_eq_some hs) (h s')

theorem firstSome_all_none {f : Nat → Option α} : ∀ {l : List Nat},
    (∀ i ∈ l, f i = none) → firstSome f l = none := by
  intro l
  induction l with
  | nil => intro _; rfl
  | cons i is ih =>
    intro h
    simp only [firstSome, h i (by simp)]
    exact ih (fun j hj => h j (by simp [hj]))

theorem firstSome_append (f : Nat → Option α) : ∀ (l1 l2 : List Nat),
    (∀ i ∈ l1, f i = none) → firstSome f (l1 ++ l2) = firstSome f l2 := by
  intro l1 l2 h
  induction l1 with
  | nil => rfl
  | cons i is ih =>
    simp only [List.cons_append, firstSome, h i (by simp)]
    exact ih (fun j hj => h j (by simp [hj]))

theorem star_zero {c : Cls} {s : List Char} (h : countWhile c s = 0) (lzy : Bool)
    (g : Groups) (k) : mtch (.star c lzy) s g k = k s g := by
  simp only [mtch, h]
  cases lzy <;> cases hk : k s g <;>
    simp [List.range, firstSome, List.range_succ, hk]

theorem range_reverse_succ (n : Nat) :
    (List.range (n + 1)).reverse = n :: (List.range n).reverse := by
  rw [List.range_succ]
  simp

theorem star_greedy_max {c : Cls} {s : List Char} {g : Groups} {k} {r}
    (h : k (s.drop (countWhile c s)) g = some r) :
    mtch (.star c false) s g k = some r := by
  simp only [mtch, Bool.false_eq_true, if_neg]
  cases hn : countWhile c s with
  | zero =>
    rw [hn] at h
    simp only [List.drop_zero] at h
    simp [firstSome, List.range_succ, h]
  | succ m =>
    rw [hn] at h
    rw [range_reverse_succ]
    simp [firstSome, h]

theorem star_lazy_first {c : Cls} {s : List Char} {g : Groups} {k} {r} {m : Nat}
    (hm : m ≤ countWhile c s)
    (hfail : ∀ i < m, k (s.drop i) g = none)
    (hsucc : k (s.drop m) g = some r) :
    mtch (.star c true) s g k = some r := by
  simp only [mtch, if_true, eq_self_iff_true]
  have hsplit : List.range (countWhile c s + 1)
      = List.range m ++ (List.range (countWhile c s + 1 - m)).map (m + ·) := by
    rw [← List.range_add]
    congr 1
    omega
  rw [hsplit, firstSome_append _ _ _ (fun i hi => hfail i (List.mem_range.mp hi))]
  have h1 : countWhile c s + 1 - m = (countWhile c s - m) + 1 := by omega
  rw [h1, List.range_succ_eq_map]
  simp only [List.map_cons, firstSome]
  simp [hsucc]

theorem star_all_fail {c : Cls} {s : List Char} {g : Groups} {k} (lzy : Bool)
    (hfail : ∀ i ≤ countWhile c s, k (s.drop i) g = none) :
    mtch (.star c lzy) s g k = none := by
  simp only [mtch]
  cases lzy with
  | true =>
    simp only [if_pos rfl]
    exact firstSome_all_none (fun i hi => hfail i (by
      have := List.mem_range.mp hi
      omega))
  | false =>
    simp only [Bool.false_eq_true, if_neg]
    exact firstSome_all_none (fun i hi => hfail i (by
      have := List.mem_range.mp (List.mem_reverse.mp hi)
      omega))

theorem countWhile_cons (c : Cls) (a : Char) (t : List Char) :
    countWhile c (a :: t) = if c.holds a then countWhile c t + 1 else 0 := by
  by_cases ha : c.holds a <;> simp [countWhile, List.takeWhile_cons, ha]

theorem countWhile_append_stop {c : Cls} {A : List Char} (hA : ∀ a ∈ A, c.holds a = true)
    {d : Char} (hd : c.holds d = false) (r : List Char) :
    countWhile c (A ++ d :: r) = A.length := by
  induction A with
  | nil => simp [countWhile, List.takeWhile_cons, hd]
  | cons a t ih =>
    have ha := hA a (by simp)
    rw [List.cons_append, countWhile_cons, if_pos ha, ih (fun x hx => hA x (by simp [hx]))]
    simp

theorem countWhile_lt_of_getLast {c : Cls} : ∀ {D : List Char} (hD : D ≠ []),
    c.holds (D.getLast hD) = false → ∀ (r : List Char), countWhile c (D ++ r) < D.length := by
  intro D
  induction D with
  | nil => intro h; exact absurd rfl h
  | cons a t ih =>
    intro _ hlast r
    cases t with
    | nil =>
      simp only [List.getLast] at hlast
      simp [countWhile_cons, hlast]
    | cons b u =>
      by_cases ha : c.holds a
      · have hlast' : c.holds ((b :: u).getLast (by simp)) = false := by
          simpa [List.getLast] using hlast
        have hlt := ih (by simp) hlast' r
        rw [List.cons_append, countWhile_cons, if_pos ha]
        simp only [List.length_cons] at hlt ⊢
        omega
      · rw [List.cons_append, countWhile_cons, if_neg (by simp [ha])]
        simp

end GrModtool

namespace GrModtool

theorem mtch_opt_nohold {c : Cls} {d : Char} (h : c.holds d = false) (s : List Char)
    (g : Groups) (k) : mtch (.opt c) (d :: s) g k = k (d :: s) g := by
  simp [mtch, h]

theorem mtch_opt_hold {c : Cls} {d : Char} (h : c.holds d = true) (s : List Char)
    (g : Groups) (k) :
    mtch (.opt c) (d :: s) g k
      = match k s g with
        | some r => some r
        | none => k (d :: s) g := by
  simp only [mtch, h, if_true]
  try rfl

theorem mtch_lits_cons_ne {c d : Char} (h : ¬ (c = d)) (s : List Char) (g : Groups) (k) :
    mtch (.lits [c]) (d :: s) g k = none := by
  simp only [mtch, stripPre]
  rw [if_neg (by simpa using h)]

theorem ws_not_word {c : Char} (h : Cls.ws.holds c = true) : Cls.word.holds c = false := by
  simp only [Cls.holds] at h
  have hc : ((((c = ' ' ∨ c = '\t') ∨ c = '\n') ∨ c = '\x0d') ∨ c = '\x0b') ∨ c = '\x0c' := by
    simpa using h
  rcases hc with ((((rfl | rfl) | rfl) | rfl) | rfl) | rfl <;> decide

theorem word_not_ws {c : Char} (h : Cls.word.holds c = true) : Cls.ws.holds c = false := by
  cases hw : Cls.ws.holds c with
  | false => rfl
  | true => rw [ws_not_word hw] at h; cases h

theorem take_append_sub (X Y : List Char) :
    (X ++ Y).take ((X ++ Y).length - Y.length) = X := by
  have h : (X ++ Y).length - Y.length = X.length := by simp
  rw [h, List.take_left]

theorem word_not_paren {c : Char} (h : Cls.word.holds c = true) :
    notParen.holds c = true := by
  cases hp : notParen.holds c with
  | true => rfl
  | false =>
    simp only [notParen, Cls.holds] at hp
    by_cases h1 : c = '('
    · subst h1; cases h
    · have h2 : c = ')' := by simpa [h1] using hp
      subst h2; cases h

end GrModtool

namespace GrModtool

/-- The tail of the append pattern (`\s*?(\s?)\)` with empty ignore) succeeds
on exactly `")"`, capturing an empty group 2. -/
theorem append_tail_succ (g : Groups) :
    mtch (.seq (.star .ws true) (.seq (.grp 2 (.seq (.opt .ws) (.seq .eps .eps)))
        (.seq (.lits [')']) .eps))) [')'] g (fun s' g' => some (g', s'))
      = some ((2, []) :: g, []) := by
  rfl

/-- The tail of the append pattern fails on `D ++ ")"` when `D` is nonempty,
paren-free and does not end in whitespace. -/
theorem append_tail_fail (D : List Char) (z : Char)
    (hD : ∀ x ∈ D, notParen.holds x = true)
    (hlastq : D.getLast? = some z) (hz : Cls.ws.holds z = false) (g : Groups) :
    mtch (.seq (.star .ws true) (.seq (.grp 2 (.seq (.opt .ws) (.seq .eps .eps)))
        (.seq (.lits [')']) .eps))) (D ++ [')']) g (fun s' g' => some (g', s'))
      = none := by
  have hne : D ≠ [] := by intro h0; rw [h0] at hlastq; cases hlastq
  have hg : D.getLast hne = z := by
    have h2 := List.getLast?_eq_getLast D hne
    rw [h2] at hlastq
    exact Option.some.inj hlastq
  rw [mtch_seq]
  apply star_all_fail
  intro j hj
  have hjlt : j < D.length := by
    have := @countWhile_lt_of_getLast Cls.ws D hne (by rw [hg]; exact hz) [')']
    omega
  rw [List.drop_append_of_le_length (le_of_lt hjlt)]
  obtain ⟨x, t, hxt⟩ : ∃ x t, D.drop j = x :: t := by
    cases hD' : D.drop j with
    | nil =>
      have : D.length - j = 0 := by
        have := congrArg List.length hD'
        simpa using this
      omega
    | cons x t => exact ⟨x, t, rfl⟩
  rw [hxt]
  have hx_mem : x ∈ D := List.drop_subset j D (by rw [hxt]; simp)
  have hx_np : notParen.holds x = true := hD x hx_mem
  have hx_ne : ¬ (')' = x) := by
    intro h0
    rw [← h0] at hx_np
    exact absurd hx_np (by decide)
  simp only [List.cons_append]
  rw [mtch_seq, mtch_grp, mtch_seq]
  by_cases hw : Cls.ws.holds x
  · have ht_ne : t ≠ [] := by
      intro h0
      subst h0
      have hDeq : D = D.take j ++ [x] := by rw [← hxt, List.take_append_drop]
      have hlx : D.getLast? = some x := by
        rw [hDeq, List.getLast?_append]
        rfl
      have hxz : x = z := by
        rw [hlx] at hlastq
        exact Option.some.inj hlastq
      rw [hxz, hz] at hw
      exact Bool.noConfusion hw
    obtain ⟨y, t', rfl⟩ : ∃ y t', t = y :: t' := by
      cases t with
      | nil => exact absurd rfl ht_ne
      | cons y t' => exact ⟨y, t', rfl⟩
    have hy_mem : y ∈ D := List.drop_subset j D (by rw [hxt]; simp)
    have hy_ne : ¬ (')' = y) := by
      intro h0
      have hnp := hD y hy_mem
      rw [← h0] at hnp
      exact absurd hnp (by decide)
    rw [mtch_opt_hold hw]
    simp only [mtch_seq, mtch_eps, List.cons_append,
      mtch_lits_cons_ne hy_ne, mtch_lits_cons_ne hx_ne]
  · rw [mtch_opt_nohold (by simpa using hw)]
    simp only [mtch_seq, mtch_eps, List.cons_append, mtch_lits_cons_ne hx_ne]

end GrModtool

namespace GrModtool

/-- Dropping fewer than all elements preserves the last element. -/
theorem getLast_of_drop {A : List Char} {i : Nat} (h : i < A.length) :
    (A.drop i).getLast? = A.getLast? := by
  have hne : A.drop i ≠ [] := by
    intro h0
    have := congrArg List.length h0
    simp at this
    omega
  conv_rhs => rw [← List.take_append_drop i A]
  rw [List.getLast?_append, List.getLast?_eq_getLast (A.drop i) hne]
  rfl

/-- `tryHere` for the append pattern on a well-formed declaration
`e(A)`: the match consumes the whole string, group 1 captures `e(A`,
group 2 captures nothing. -/
theorem tryHere_append_family (e A : List Char) (z : Char) (a : Bool)
    (hA : ∀ x ∈ A, notParen.holds x = true)
    (hlastq : A.getLast? = some z) (hz : Cls.ws.holds z = false) :
    tryHere (appendPat (.lits e) .eps) a (e ++ '(' :: (A ++ [')']))
      = some ([(2, []), (1, e ++ '(' :: A)], []) := by
  rw [tryHere_nobol rfl]
  simp only [appendPat, RE.cat, RE.str, List.foldr]
  rw [mtch_seq, mtch_grp, mtch_seq, mtch_lits_append]
  rw [mtch_seq, mtch_lits_cons, mtch_seq]
  refine @star_lazy_first _ _ _ _ _ A.length ?_ ?_ ?_
  · rw [countWhile_append_stop hA (show notParen.holds ')' = false from by decide) []]
  · intro i hi
    rw [List.drop_append_of_le_length (le_of_lt hi)]
    rw [mtch_eps]
    refine append_tail_fail (A.drop i) z ?_ ?_ hz _
    · intro x hx
      exact hA x (List.drop_subset i A hx)
    · rw [getLast_of_drop hi]
      exact hlastq
  · rw [List.drop_left]
    rw [mtch_eps]
    rw [show e ++ '(' :: (A ++ [')']) = (e ++ '(' :: A) ++ [')'] from by simp]
    rw [take_append_sub]
    exact append_tail_succ _

end GrModtool

namespace GrModtool

/-- getLast?-based form of the whitespace-run bound. -/
theorem countWhile_lt_of_getLastq {c : Cls} {D : List Char} {z : Char}
    (hq : D.getLast? = some z) (hz : c.holds z = false) (r : List Char) :
    countWhile c (D ++ r) < D.length := by
  have hne : D ≠ [] := by intro h0; rw [h0] at hq; cases hq
  have hg : D.getLast hne = z := by
    have h2 := List.getLast?_eq_getLast D hne
    rw [h2] at hq
    exact Option.some.inj hq
  exact @countWhile_lt_of_getLast c D hne (by rw [hg]; exact hz) r

/-- A class run is empty when the head already falls outside the class. -/
theorem countWhile_eq_zero_of_head {c : Cls} {s : List Char} {w : Char}
    (hh : s.head? = some w) (hw : c.holds w = false) (r : List Char) :
    countWhile c (s ++ r) = 0 := by
  cases s with
  | nil => cases hh
  | cons a t =>
    have ha : a = w := by
      simp only [List.head?] at hh
      exact Option.some.inj hh
    rw [List.cons_append, countWhile_cons, ha, hw]
    simp

/-- The removed value, being made of word characters and not occurring
inside the argument text, is never a prefix of a proper suffix of the
argument text followed by a space. -/
theorem value_not_leading (A v : List Char) (n : Nat) (hn : n < A.length)
    (hvne : v ≠ []) (hvw : ∀ x ∈ v, Cls.word.holds x = true)
    (hvsub : ∀ a b, A ≠ a ++ v ++ b) (r t : List Char) :
    A.drop n ++ ' ' :: r ≠ v ++ t := by
  intro h
  by_cases hL : v.length ≤ (A.drop n).length
  · have htake := congrArg (fun l => List.take v.length l) h
    simp only [] at htake
    rw [List.take_append_of_le_length hL, List.take_left] at htake
    apply hvsub (A.take n) ((A.drop n).drop v.length)
    have hDsplit : A.drop n = v ++ (A.drop n).drop v.length := by
      conv_lhs => rw [← List.take_append_drop v.length (A.drop n)]
      rw [htake]
    conv_lhs => rw [← List.take_append_drop n A, hDsplit]
    rw [List.append_assoc]
  · have hidx : (A.drop n ++ ' ' :: r)[(A.drop n).length]? = some ' ' := by
      rw [List.getElem?_append_right (le_refl _)]
      simp
    rw [h] at hidx
    rw [List.getElem?_append_left (by omega)] at hidx
    have hmem : ' ' ∈ v := List.getElem?_mem hidx
    have := hvw ' ' hmem
    exact absurd this (by decide)

/-- A class run over `A ++ r` is at least `A` long when all of `A` is in
the class. -/
theorem le_countWhile_append {c : Cls} {A : List Char}
    (hA : ∀ a ∈ A, c.holds a = true) (r : List Char) :
    A.length ≤ countWhile c (A ++ r) := by
  induction A with
  | nil => simp
  | cons a t ih =>
    rw [List.cons_append, countWhile_cons, hA a (by simp)]
    simp only [List.length_cons, if_true]
    have := ih (fun x hx => hA x (by simp [hx]))
    omega

/-- `tryHere` for the remove pattern on the declaration produced by the
append step: the match consumes the whole string, group 1 captures up to
and including the separating space, group 2 captures the closing paren. -/
theorem tryHere_remove_family (e A v : List Char) (z w u : Char)
    (he : e.head? = some u) (hew : Cls.word.holds u = true)
    (hA : ∀ x ∈ A, notParen.holds x = true)
    (hlastq : A.getLast? = some z) (hz : Cls.ws.holds z = false)
    (hheadq : A.head? = some w) (hwv : Cls.ws.holds w = false)
    (hvne : v ≠ []) (hvw : ∀ x ∈ v, Cls.word.holds x = true)
    (hvsub : ∀ a b, A ≠ a ++ v ++ b) :
    tryHere (removePat (.lits e) .eps (.lits v)) true
        (e ++ '(' :: ((A ++ ' ' :: v) ++ [')']))
      = some ([(2, [')']), (1, (e ++ '(' :: A) ++ [' '])], []) := by
  simp only [tryHere, removePat, Bool.not_true, Bool.and_false,
    Bool.false_eq_true, if_false, RE.cat, RE.str, List.foldr,
    List.append_assoc, List.cons_append]
  rw [mtch_seq, star_zero (countWhile_eq_zero_of_head he (word_not_ws hew) _)]
  rw [mtch_seq, mtch_grp, mtch_seq, mtch_lits_append]
  rw [mtch_seq, mtch_lits_cons]
  rw [mtch_seq, star_zero (countWhile_eq_zero_of_head hheadq hwv _)]
  rw [mtch_seq, mtch_eps]
  rw [mtch_seq]
  refine @star_lazy_first _ _ _ _ _ A.length ?_ ?_ ?_
  · exact le_trans (le_refl _) (le_countWhile_append hA _)
  · intro i hi
    rw [List.drop_append_of_le_length (le_of_lt hi)]
    rw [mtch_seq]
    apply star_all_fail
    intro j hj
    have hbound : countWhile Cls.ws (A.drop i ++ ' ' :: (v ++ [')']))
        < (A.drop i).length := by
      refine countWhile_lt_of_getLastq ?_ hz _
      rw [getLast_of_drop hi]
      exact hlastq
    have hjlt : j < (A.drop i).length := lt_of_le_of_lt hj hbound
    rw [List.drop_append_of_le_length (le_of_lt hjlt)]
    rw [List.drop_drop]
    rw [mtch_eps]
    rw [mtch_seq]
    refine mtch_lits_not_pre
      (value_not_leading A v (i + j) ?_ hvne hvw hvsub _) _ _
    have hlen : (A.drop i).length = A.length - i := by simp
    omega
  · rw [List.drop_left]
    rw [mtch_seq]
    obtain ⟨c, hc⟩ : ∃ c, v.head? = some c := by
      cases v with
      | nil => exact absurd rfl hvne
      | cons c t => exact ⟨c, rfl⟩
    have hcv : c ∈ v := by
      cases v with
      | nil => cases hc
      | cons a t =>
        have ha : a = c := Option.some.inj hc
        rw [← ha]
        simp
    have hcw : countWhile Cls.ws (' ' :: (v ++ [')'])) = 1 := by
      rw [countWhile_cons]
      rw [countWhile_eq_zero_of_head hc (word_not_ws (hvw c hcv)) _]
      decide
    apply star_greedy_max
    rw [hcw]
    rw [show (' ' :: (v ++ [')'])).drop 1 = v ++ [')'] from by simp]
    rw [mtch_eps]
    rw [show e ++ '(' :: (A ++ ' ' :: (v ++ [')']))
          = ((e ++ '(' :: A) ++ [' ']) ++ (v ++ [')']) from by simp]
    rw [take_append_sub]
    rw [mtch_seq, mtch_lits_append]
    rw [mtch_seq, star_zero (show countWhile Cls.ws [')'] = 0 from by decide)]
    rw [mtch_seq, mtch_grp]
    rw [mtch_seq, star_zero (show countWhile notParen [')'] = 0 from by decide)]
    rw [mtch_seq, mtch_lits_cons, mtch_eps, mtch_eps]
    simp

end GrModtool

namespace GrModtool

/-- When the pattern matches at position 0 and consumes the whole input,
`re.sub` with count 1 returns exactly the rendered replacement. -/
theorem pySub_head_match (p : Pattern) (repl : Groups → List Char)
    (s : List Char) (g : Groups)
    (ht : tryHere p true s = some (g, [])) (hs : s ≠ []) :
    pySub p repl (some 1) s = repl g := by
  have hss : searchSplit p true s = some ([], s, g, []) := by
    rw [searchSplit_unfold, ht]
    simp
  have h2 := subFuel_first_match p repl (s.length + 1) true s [] s [] g
    (by omega) hss hs
  simpa [pySub] using h2

/-- `append_value` on a clean declaration `e(A)` inserts a space and the
value before the closing paren. -/
theorem append_value_family (e A v : List Char) (z : Char)
    (hA : ∀ x ∈ A, notParen.holds x = true)
    (hlastq : A.getLast? = some z) (hz : Cls.ws.holds z = false) :
    append_value " " (.lits e) ⟨v⟩ .eps ⟨e ++ '(' :: (A ++ [')'])⟩
      = ⟨e ++ '(' :: ((A ++ ' ' :: v) ++ [')'])⟩ := by
  have ht := tryHere_append_family e A z true hA hlastq hz
  unfold append_value
  rw [pySub_head_match _ _ _ _ ht (by simp)]
  simp [grpVal]

/-- `remove_value` on the declaration left by the append step removes the
value but keeps the separating space in front of the closing paren. -/
theorem remove_value_family (e A v : List Char) (z w u : Char)
    (he : e.head? = some u) (hew : Cls.word.holds u = true)
    (hA : ∀ x ∈ A, notParen.holds x = true)
    (hlastq : A.getLast? = some z) (hz : Cls.ws.holds z = false)
    (hheadq : A.head? = some w) (hwv : Cls.ws.holds w = false)
    (hvne : v ≠ []) (hvw : ∀ x ∈ v, Cls.word.holds x = true)
    (hvsub : ∀ a b, A ≠ a ++ v ++ b) :
    remove_value (.lits e) (.lits v) .eps ⟨e ++ '(' :: ((A ++ ' ' :: v) ++ [')'])⟩
      = ⟨(e ++ '(' :: A) ++ [' ', ')']⟩ := by
  have ht := tryHere_remove_family e A v z w u he hew hA hlastq hz hheadq hwv
    hvne hvw hvsub
  unfold remove_value
  rw [pySub_head_match _ _ _ _ ht (by simp)]
  simp [grpVal]

/-- A bounded, decidable no-occurrence check implies substring freedom. -/
theorem no_occurrence (A v : List Char) (hvne : v ≠ [])
    (hvsub : ∀ n < A.length, (A.drop n).take v.length ≠ v) :
    ∀ a b, A ≠ a ++ v ++ b := by
  intro a b hEq
  have hvlen : 0 < v.length := List.length_pos.mpr hvne
  have hn : a.length < A.length := by
    have := congrArg List.length hEq
    simp at this
    omega
  apply hvsub a.length hn
  rw [hEq, List.append_assoc, List.drop_left, List.take_left]

/-- **C1** (corrected).  For every clean declaration `e(A)` (entry starting
with a word character, paren-free argument text with non-whitespace first
and last characters, a nonempty word-character value not occurring in the
argument text), appending the value and then removing it does NOT restore
the original buffer: the separating space inserted by `append_value` is
kept by `remove_value`, leaving `e(A )` instead of `e(A)`. -/
theorem claim_C1_append_remove (e A v : List Char) (z w u : Char)
    (he : e.head? = some u) (hew : Cls.word.holds u = true)
    (hA : ∀ x ∈ A, notParen.holds x = true)
    (hlastq : A.getLast? = some z) (hz : Cls.ws.holds z = false)
    (hheadq : A.head? = some w) (hwv : Cls.ws.holds w = false)
    (hvne : v ≠ []) (hvw : ∀ x ∈ v, Cls.word.holds x = true)
    (hvsub : ∀ n < A.length, (A.drop n).take v.length ≠ v) :
    remove_value (.lits e) (.lits v) .eps
        (append_value " " (.lits e) ⟨v⟩ .eps ⟨e ++ '(' :: (A ++ [')'])⟩)
      = ⟨(e ++ '(' :: A) ++ [' ', ')']⟩
    ∧ (⟨(e ++ '(' :: A) ++ [' ', ')']⟩ : String) ≠ ⟨e ++ '(' :: (A ++ [')'])⟩ := by
  have hvsub' : ∀ a b, A ≠ a ++ v ++ b := no_occurrence A v hvne hvsub
  constructor
  · rw [append_value_family e A v z hA hlastq hz]
    exact remove_value_family e A v z w u he hew hA hlastq hz hheadq hwv
      hvne hvw hvsub'
  · intro hEq
    have hd := congrArg String.data hEq
    simp only [] at hd
    have := congrArg List.length hd
    simp at this

end GrModtool

namespace GrModtool

set_option maxRecDepth 10000 in
/-- **C1** counterexample: on the clean buffer `add_library(foo_cc)`,
appending the value `bar_cc` and then removing it yields
`add_library(foo_cc )` — an extra space before the closing paren — not the
original buffer. -/
theorem claim_C1_counterexample :
    remove_value (.lits "add_library".data) (.lits "bar_cc".data) .eps
        (append_value " " (.lits "add_library".data) ⟨"bar_cc".data⟩ .eps
          "add_library(foo_cc)")
      = "add_library(foo_cc )"
    ∧ ("add_library(foo_cc )" : String) ≠ "add_library(foo_cc)" := by
  constructor
  · have h1 := append_value_family "add_library".data "foo_cc".data
      "bar_cc".data 'c' (by decide) (by decide) (by decide)
    have h2 := remove_value_family "add_library".data "foo_cc".data
      "bar_cc".data 'c' 'f' 'a' (by decide) (by decide) (by decide)
      (by decide) (by decide) (by decide) (by decide) (by decide) (by decide)
      (no_occurrence "foo_cc".data "bar_cc".data (by decide) (by decide))
    rw [show ("add_library(foo_cc)" : String)
          = ⟨"add_library".data ++ '(' :: ("foo_cc".data ++ [')'])⟩ from rfl]
    rw [h1, h2]
    rfl
  · decide


end GrModtool

namespace GrModtool

/-- Witness for C1: the corrected round-trip theorem instantiated on the
concrete declaration `add_library(foo_cc)` with value `bar_cc`. -/
theorem claim_C1_witness :
    remove_value (.lits "add_library".data) (.lits "bar_cc".data) .eps
        (append_value " " (.lits "add_library".data) ⟨"bar_cc".data⟩ .eps
          ⟨"add_library".data ++ '(' :: ("foo_cc".data ++ [')'])⟩)
      = ⟨("add_library".data ++ '(' :: "foo_cc".data) ++ [' ', ')']⟩
    ∧ (⟨("add_library".data ++ '(' :: "foo_cc".data) ++ [' ', ')']⟩ : String)
      ≠ ⟨"add_library".data ++ '(' :: ("foo_cc".data ++ [')'])⟩ :=
  claim_C1_append_remove "add_library".data "foo_cc".data "bar_cc".data
    'c' 'f' 'a' (by decide) (by decide) (by decide) (by decide) (by decide)
    (by decide) (by decide) (by decide) (by decide) (by decide)

end GrModtool
